import Mathlib

/-!
Verification development for the Vue component-lifecycle tracing core of
`packages/replay-internal/src/util/createPerformanceEntries.ts` (the
`createTracingMixins` / `finishRootSpan` portion) and for the web-vital
helpers (`getCumulativeLayoutShift` / `getWebVital`) of the same file.

The TypeScript code is shallowly embedded as a state machine:

* `GlobalState` holds the mutable data attached to the component tree:
  the per-instance `_sentrySpans` map, the root's `_sentryRootSpan`, the
  per-instance `_sentryRootSpanTimer` handle, the set of pending
  `setTimeout` timers, and fresh-id counters for spans and timers.
  `endEvents` is a log of every `span.end(...)` call made by the core
  (span id, explicit timestamp argument if any, wall-clock time of the
  call); `rootSpanIds` is a log of every span id that was ever stored as
  the root span.  The logs are observation instrumentation only: no
  transition reads them.
* Spans are identified by the order of `startInactiveSpan` calls
  (`nextSpan` counter); timers by the order of `setTimeout` calls.
* Time is a single abstract monotone clock (`Nat`); the source mixes
  seconds (span timestamps) and milliseconds (`setTimeout`), which only
  rescales units and does not affect any property proved here.
* The host framework's hook dispatch is modelled as a list of
  `HookEvent`s processed in time order; pending timers whose deadline
  has passed fire before the next hook event runs (`fireDue`), and all
  remaining timers fire at the end of a run (`drain`).
-/

namespace SentryVue

abbrev Time := Nat

/-- A pending `setTimeout` scheduled by `finishRootSpan`.  `owner` is the
component instance on whose `$data._sentryRootSpanTimer` the handle was
stored; `payload` is the `timestamp` argument captured by the closure and
later passed to `span.end`. -/
structure TimerRec where
  id : Nat
  fireAt : Time
  payload : Time
  owner : Nat
deriving Repr, DecidableEq

/-- A record of one `span.end(...)` call: which span, the explicit
timestamp argument (`none` when `end()` is called with no argument), and
the wall-clock time at which the call happened. -/
structure EndEvent where
  span : Nat
  ts : Option Time
  wall : Time
deriving Repr, DecidableEq

/-- The mutable state attached to one component tree (all instances'
`$data` records together), plus observation logs. -/
structure GlobalState where
  /-- `$data._sentrySpans` of each instance: instance ↦ operation ↦ open-span slot. -/
  sentrySpans : Nat → String → Option Nat
  /-- the root instance's `$data._sentryRootSpan`. -/
  rootSpan : Option Nat
  /-- `$data._sentryRootSpanTimer` of each instance (may be a stale handle). -/
  timerOf : Nat → Option Nat
  /-- pending (scheduled, not yet fired or cleared) timers. -/
  timers : List TimerRec
  nextSpan : Nat
  nextTimer : Nat
  /-- log of all `span.end` calls. -/
  endEvents : List EndEvent
  /-- log of all span ids ever stored into `_sentryRootSpan`. -/
  rootSpanIds : List Nat

/-- `options.trackComponents`: a list of names, a boolean, or absent. -/
inductive TrackComponents where
  | absent
  | flag (b : Bool)
  | names (l : List String)

/-- The options consumed by the mixin hook bodies. -/
structure TracingOptions where
  trackComponents : TrackComponents
  timeout : Time

/-- The component tree, reduced to what the hook bodies read: the root
instance (`this.$root`, shared by every instance) and each instance's
display name (`formatComponentName`, an external helper). -/
structure Tree where
  root : Nat
  displayName : Nat → String

/-- Lines 339-341: `Array.isArray(options.trackComponents) ?
options.trackComponents.indexOf(name) > -1 : options.trackComponents`
(an absent option is falsy at the use site). -/
def shouldTrack (opts : TracingOptions) (name : String) : Bool :=
  match opts.trackComponents with
  | .names l => l.contains name
  | .flag b => b
  | .absent => false

/-- `clearTimeout` on a handle: the timer with that id is no longer
pending (a stale handle clears nothing). -/
def clearTimeout (tid : Nat) (timers : List TimerRec) : List TimerRec :=
  timers.filter (fun t => t.id ≠ tid)

/-- Lines 282-293, `finishRootSpan(vm, timestamp, timeout)`: clear the
timer handle stored on `vm.$data._sentryRootSpanTimer` (if any), then
schedule a new timer for `timeout` from now, storing its handle on the
same instance.  The closure captures `timestamp`; its body is modelled by
`fireTimer`. -/
def finishRootSpan (i : Nat) (timestamp : Time) (timeout : Time) (now : Time)
    (s : GlobalState) : GlobalState :=
  let timers :=
    match s.timerOf i with
    | some tid => clearTimeout tid s.timers
    | none => s.timers
  { s with
    timers := timers ++ [⟨s.nextTimer, now + timeout, timestamp, i⟩],
    timerOf := fun j => if j = i then some s.nextTimer else s.timerOf j,
    nextTimer := s.nextTimer + 1 }

/-- Lines 287-292, the `setTimeout` callback of `finishRootSpan` firing:
the timer stops being pending; if `vm.$root.$data._sentryRootSpan` is
still present it is ended with the captured `timestamp` and cleared. -/
def fireTimer (t : TimerRec) (s : GlobalState) : GlobalState :=
  let s1 := { s with timers := s.timers.filter (fun u => u.id ≠ t.id) }
  match s1.rootSpan with
  | some sp =>
      { s1 with
        rootSpan := none,
        endEvents := s1.endEvents ++ [⟨sp, some t.payload, t.fireAt⟩] }
  | none => s1

/-- Lines 322-335: on the root instance, if there is an externally
active span (`getActiveSpan()`), lazily create the root span
(`this.$data._sentryRootSpan = this.$data._sentryRootSpan ||
startInactiveSpan({name: 'Application Render', ...})`). -/
def ensureRootSpan (tree : Tree) (i : Nat) (ext : Option Nat)
    (s : GlobalState) : GlobalState :=
  if i = tree.root then
    match ext with
    | some _ =>
      match s.rootSpan with
      | some _ => s
      | none =>
        { s with
          rootSpan := some s.nextSpan,
          rootSpanIds := s.rootSpanIds ++ [s.nextSpan],
          nextSpan := s.nextSpan + 1 }
    | none => s
  else s

/-- Lines 352-370, the branch taken when the firing hook is the
operation's 'before' hook: pick the starting context
(`(this.$root && this.$root.$data._sentryRootSpan) || getActiveSpan()`);
if none, do nothing; otherwise defensively end any span still stored for
this operation, then open a fresh span and store it. -/
def beforeHookBody (i : Nat) (operation : String) (ext : Option Nat)
    (now : Time) (s : GlobalState) : GlobalState :=
  match s.rootSpan.orElse (fun _ => ext) with
  | none => s
  | some _ =>
    let s1 :=
      match s.sentrySpans i operation with
      | some oldSpan =>
        { s with endEvents := s.endEvents ++ [EndEvent.mk oldSpan none now] }
      | none => s
    { s1 with
      sentrySpans := fun j q =>
        if j = i ∧ q = operation then some s1.nextSpan else s1.sentrySpans j q,
      nextSpan := s1.nextSpan + 1 }

/-- Lines 371-380, the branch taken when the firing hook is the
operation's 'after' hook: look up the stored span; if absent, return;
otherwise `span.end()` and `finishRootSpan(this, timestampInSeconds(),
options.timeout)`.  The stored map entry is not removed. -/
def afterHookBody (opts : TracingOptions) (i : Nat) (operation : String)
    (now : Time) (s : GlobalState) : GlobalState :=
  match s.sentrySpans i operation with
  | none => s
  | some sp =>
    finishRootSpan i now opts.timeout now
      { s with endEvents := s.endEvents ++ [EndEvent.mk sp none now] }

/-- Lines 319-381, the body of the mixin handler installed for
(`operation`, before/after hook), run on instance `i` with the externally
active span `ext` at time `now`. -/
def runHook (tree : Tree) (opts : TracingOptions) (i : Nat)
    (operation : String) (isBefore : Bool) (ext : Option Nat) (now : Time)
    (s : GlobalState) : GlobalState :=
  let s1 := ensureRootSpan tree i ext s
  if i ≠ tree.root ∧ shouldTrack opts (tree.displayName i) = false then s1
  else if isBefore then beforeHookBody i operation ext now s1
  else afterHookBody opts i operation now s1

/-! ### Scheduling: hook events interleaved with due timers -/

/-- One lifecycle hook invocation by the host framework. -/
structure HookEvent where
  time : Time
  inst : Nat
  operation : String
  isBefore : Bool
  /-- result of `getActiveSpan()` during this synchronous callback. -/
  ext : Option Nat

/-- Timers due at or before `bound`. -/
def dueTimers (timers : List TimerRec) (bound : Time) : List TimerRec :=
  timers.filter (fun t => decide (t.fireAt ≤ bound))

/-- Scheduling order of two timers: earlier deadline first, ties broken
by creation order. -/
def earlierTimer (t u : TimerRec) : Bool :=
  decide (t.fireAt < u.fireAt ∨ (t.fireAt = u.fireAt ∧ t.id < u.id))

/-- The next timer that would fire, given the clock has reached `bound`. -/
def pickDue (timers : List TimerRec) (bound : Time) : Option TimerRec :=
  match dueTimers timers bound with
  | [] => none
  | t :: ts => some (ts.foldl (fun best u => if earlierTimer u best then u else best) t)

def fireDueAux : Nat → Time → GlobalState → GlobalState
  | 0, _, s => s
  | fuel + 1, bound, s =>
    match pickDue s.timers bound with
    | none => s
    | some t => fireDueAux fuel bound (fireTimer t s)

/-- Fire every pending timer whose deadline is ≤ `bound`, in scheduling
order.  Each firing removes one pending timer and schedules none, so
`s.timers.length` steps suffice. -/
def fireDue (bound : Time) (s : GlobalState) : GlobalState :=
  fireDueAux s.timers.length bound s

/-- Fresh state: the mixin `data()` initializer (lines 302-306) leaves
every slot undefined. -/
def initState : GlobalState :=
  { sentrySpans := fun _ _ => none
    rootSpan := none
    timerOf := fun _ => none
    timers := []
    nextSpan := 0
    nextTimer := 0
    endEvents := []
    rootSpanIds := [] }

/-- Process one hook event: first fire the timers that came due, then run
the hook body. -/
def stepEvent (tree : Tree) (opts : TracingOptions) (s : GlobalState)
    (e : HookEvent) : GlobalState :=
  runHook tree opts e.inst e.operation e.isBefore e.ext e.time (fireDue e.time s)

def runEvents (tree : Tree) (opts : TracingOptions) :
    GlobalState → List HookEvent → GlobalState
  | s, [] => s
  | s, e :: es => runEvents tree opts (stepEvent tree opts s e) es

def maxFireAt (timers : List TimerRec) : Time :=
  timers.foldl (fun m t => max m t.fireAt) 0

/-- After the last hook event, let every still-pending timer fire. -/
def drain (s : GlobalState) : GlobalState := fireDue (maxFireAt s.timers) s

/-- A complete run from a fresh tree. -/
def runAll (tree : Tree) (opts : TracingOptions) (events : List HookEvent) :
    GlobalState :=
  drain (runEvents tree opts initState events)

/-- How many times span `sp` occurs in an end-event log. -/
def endCountL (es : List EndEvent) (sp : Nat) : Nat :=
  es.countP (fun ev => ev.span == sp)

/-- How many times span `sp` was ended. -/
def endCount (s : GlobalState) (sp : Nat) : Nat :=
  endCountL s.endEvents sp

/-- The `end` calls made on the root span by the close timer (these are
the only `end` calls that pass an explicit timestamp). -/
def rootCloses (s : GlobalState) : List EndEvent :=
  s.endEvents.filter (fun ev => ev.ts.isSome)

/-! ### Concrete trees, options and runs used in counterexamples and witnesses -/

/-- A tree with root instance `0` where every instance has the same name. -/
def treeA : Tree := ⟨0, fun _ => "X"⟩

/-- Track every component, quiet period 10. -/
def optsA : TracingOptions := ⟨.flag true, 10⟩

/-- Two different instances (1 and 2) each complete a `mount` operation
under an active external span, 2 time units apart. -/
def c2evs : List HookEvent :=
  [⟨0, 1, "mount", true, some 7⟩, ⟨1, 1, "mount", false, some 7⟩,
   ⟨2, 2, "mount", true, some 7⟩, ⟨3, 2, "mount", false, some 7⟩]

/-- The root starts a root span and completes a `mount` at time 1; child
instance 1 completes a `mount` at time 7 (gap 6 < timeout 10). -/
def c3evs : List HookEvent :=
  [⟨0, 0, "mount", true, some 50⟩, ⟨1, 0, "mount", false, some 50⟩,
   ⟨6, 1, "mount", true, some 50⟩, ⟨7, 1, "mount", false, some 50⟩]

/-- A tree with root instance `0`, where instance 2 is named `"Foo"`,
instance 0 `"Root"`, everyone else `"Bar"`. -/
def treeB : Tree := ⟨0, fun j => if j = 2 then "Foo" else if j = 0 then "Root" else "Bar"⟩

/-- Track only components named `"Foo"`, quiet period 10. -/
def optsB : TracingOptions := ⟨.names ["Foo"], 10⟩

/-- State after a before-hook for `mount` on instance 1 opened span 0. -/
def c4s0 : GlobalState := runHook treeA optsA 1 "mount" true (some 7) 4 initState

/-- State after the matching after-hook on instance 1 ended span 0. -/
def c4s1 : GlobalState := runHook treeA optsA 1 "mount" false (some 7) 5 c4s0

/-! ### Simple projection lemmas about the hook bodies -/

theorem finishRootSpan_rootSpan (i : Nat) (ts timeout now : Time) (s : GlobalState) :
    (finishRootSpan i ts timeout now s).rootSpan = s.rootSpan := rfl

theorem finishRootSpan_sentrySpans (i : Nat) (ts timeout now : Time) (s : GlobalState) :
    (finishRootSpan i ts timeout now s).sentrySpans = s.sentrySpans := rfl

theorem finishRootSpan_rootSpanIds (i : Nat) (ts timeout now : Time) (s : GlobalState) :
    (finishRootSpan i ts timeout now s).rootSpanIds = s.rootSpanIds := rfl

theorem finishRootSpan_endEvents (i : Nat) (ts timeout now : Time) (s : GlobalState) :
    (finishRootSpan i ts timeout now s).endEvents = s.endEvents := rfl

theorem beforeHookBody_rootSpan (i : Nat) (op : String) (ext : Option Nat)
    (now : Time) (s : GlobalState) :
    (beforeHookBody i op ext now s).rootSpan = s.rootSpan := by
  unfold beforeHookBody
  cases s.rootSpan.orElse (fun _ => ext) <;> cases s.sentrySpans i op <;> rfl

theorem beforeHookBody_rootSpanIds (i : Nat) (op : String) (ext : Option Nat)
    (now : Time) (s : GlobalState) :
    (beforeHookBody i op ext now s).rootSpanIds = s.rootSpanIds := by
  unfold beforeHookBody
  cases s.rootSpan.orElse (fun _ => ext) <;> cases s.sentrySpans i op <;> rfl

theorem beforeHookBody_timers (i : Nat) (op : String) (ext : Option Nat)
    (now : Time) (s : GlobalState) :
    (beforeHookBody i op ext now s).timers = s.timers := by
  unfold beforeHookBody
  cases s.rootSpan.orElse (fun _ => ext) <;> cases s.sentrySpans i op <;> rfl

theorem beforeHookBody_timerOf (i : Nat) (op : String) (ext : Option Nat)
    (now : Time) (s : GlobalState) :
    (beforeHookBody i op ext now s).timerOf = s.timerOf := by
  unfold beforeHookBody
  cases s.rootSpan.orElse (fun _ => ext) <;> cases s.sentrySpans i op <;> rfl

theorem afterHookBody_rootSpan (opts : TracingOptions) (i : Nat) (op : String)
    (now : Time) (s : GlobalState) :
    (afterHookBody opts i op now s).rootSpan = s.rootSpan := by
  unfold afterHookBody
  cases s.sentrySpans i op <;> rfl

theorem afterHookBody_rootSpanIds (opts : TracingOptions) (i : Nat) (op : String)
    (now : Time) (s : GlobalState) :
    (afterHookBody opts i op now s).rootSpanIds = s.rootSpanIds := by
  unfold afterHookBody
  cases s.sentrySpans i op <;> rfl

theorem afterHookBody_sentrySpans (opts : TracingOptions) (i : Nat) (op : String)
    (now : Time) (s : GlobalState) :
    (afterHookBody opts i op now s).sentrySpans = s.sentrySpans := by
  unfold afterHookBody
  cases s.sentrySpans i op <;> rfl

theorem ensureRootSpan_notRoot (tree : Tree) (i : Nat) (ext : Option Nat)
    (s : GlobalState) (h : i ≠ tree.root) :
    ensureRootSpan tree i ext s = s := by
  unfold ensureRootSpan
  rw [if_neg h]

theorem ensureRootSpan_rootSpan (tree : Tree) (i : Nat) (ext : Option Nat)
    (s : GlobalState) :
    (ensureRootSpan tree i ext s).rootSpan =
      (if i = tree.root ∧ s.rootSpan = none ∧ ext.isSome
        then some s.nextSpan else s.rootSpan) := by
  unfold ensureRootSpan
  by_cases h : i = tree.root
  · rw [if_pos h]
    cases hx : ext <;> cases hr : s.rootSpan <;> simp [h, hx, hr]
  · rw [if_neg h]
    simp [h]

theorem ensureRootSpan_rootSpanIds (tree : Tree) (i : Nat) (ext : Option Nat)
    (s : GlobalState) :
    (ensureRootSpan tree i ext s).rootSpanIds =
      (if i = tree.root ∧ s.rootSpan = none ∧ ext.isSome
        then s.rootSpanIds ++ [s.nextSpan] else s.rootSpanIds) := by
  unfold ensureRootSpan
  by_cases h : i = tree.root
  · rw [if_pos h]
    cases hx : ext <;> cases hr : s.rootSpan <;> simp [h, hx, hr]
  · rw [if_neg h]
    simp [h]

theorem ensureRootSpan_sentrySpans (tree : Tree) (i : Nat) (ext : Option Nat)
    (s : GlobalState) :
    (ensureRootSpan tree i ext s).sentrySpans = s.sentrySpans := by
  unfold ensureRootSpan
  by_cases h : i = tree.root
  · rw [if_pos h]; cases ext <;> cases s.rootSpan <;> rfl
  · rw [if_neg h]

theorem ensureRootSpan_endEvents (tree : Tree) (i : Nat) (ext : Option Nat)
    (s : GlobalState) :
    (ensureRootSpan tree i ext s).endEvents = s.endEvents := by
  unfold ensureRootSpan
  by_cases h : i = tree.root
  · rw [if_pos h]; cases ext <;> cases s.rootSpan <;> rfl
  · rw [if_neg h]

theorem ensureRootSpan_timers (tree : Tree) (i : Nat) (ext : Option Nat)
    (s : GlobalState) :
    (ensureRootSpan tree i ext s).timers = s.timers := by
  unfold ensureRootSpan
  by_cases h : i = tree.root
  · rw [if_pos h]; cases ext <;> cases s.rootSpan <;> rfl
  · rw [if_neg h]

theorem ensureRootSpan_timerOf (tree : Tree) (i : Nat) (ext : Option Nat)
    (s : GlobalState) :
    (ensureRootSpan tree i ext s).timerOf = s.timerOf := by
  unfold ensureRootSpan
  by_cases h : i = tree.root
  · rw [if_pos h]; cases ext <;> cases s.rootSpan <;> rfl
  · rw [if_neg h]

theorem ensureRootSpan_nextTimer (tree : Tree) (i : Nat) (ext : Option Nat)
    (s : GlobalState) :
    (ensureRootSpan tree i ext s).nextTimer = s.nextTimer := by
  unfold ensureRootSpan
  by_cases h : i = tree.root
  · rw [if_pos h]; cases ext <;> cases s.rootSpan <;> rfl
  · rw [if_neg h]

theorem ensureRootSpan_noop_of_isSome (tree : Tree) (i : Nat) (ext : Option Nat)
    (s : GlobalState) (h : s.rootSpan.isSome = true) :
    ensureRootSpan tree i ext s = s := by
  unfold ensureRootSpan
  by_cases hi : i = tree.root
  · rw [if_pos hi]
    cases ext with
    | none => rfl
    | some a =>
      cases hr : s.rootSpan with
      | none => rw [hr] at h; simp at h
      | some r => rfl
  · rw [if_neg hi]

theorem ensureRootSpan_ext_none (tree : Tree) (i : Nat) (s : GlobalState) :
    ensureRootSpan tree i none s = s := by
  unfold ensureRootSpan
  by_cases hi : i = tree.root
  · rw [if_pos hi]
  · rw [if_neg hi]

theorem ensureRootSpan_nextSpan_ge (tree : Tree) (i : Nat) (ext : Option Nat)
    (s : GlobalState) :
    s.nextSpan ≤ (ensureRootSpan tree i ext s).nextSpan := by
  unfold ensureRootSpan
  by_cases hi : i = tree.root
  · rw [if_pos hi]
    cases ext <;> cases s.rootSpan <;> simp
  · rw [if_neg hi]

/-- Opening a span in the before-hook: when a starting context exists,
the stored slot for the operation receives a fresh span, the span
counter advances, and the only end event possibly emitted is the
defensive close of the previously stored span. -/
theorem beforeHookBody_open (i : Nat) (op : String) (ext : Option Nat)
    (now : Time) (s : GlobalState)
    (hctx : (s.rootSpan.orElse (fun _ => ext)).isSome = true) :
    (beforeHookBody i op ext now s).sentrySpans i op = some s.nextSpan ∧
    (beforeHookBody i op ext now s).nextSpan = s.nextSpan + 1 ∧
    (beforeHookBody i op ext now s).endEvents =
      s.endEvents ++ (match s.sentrySpans i op with
        | some oldSpan => [EndEvent.mk oldSpan none now]
        | none => []) := by
  unfold beforeHookBody
  cases hro : s.rootSpan.orElse (fun _ => ext) with
  | none => rw [hro] at hctx; simp at hctx
  | some a => cases hold : s.sentrySpans i op <;> simp [hold]

/-- An instance passes the tracking filter when it is the root or its
name is accepted by `shouldTrack`. -/
theorem tracked_not_skip (tree : Tree) (opts : TracingOptions) (i : Nat)
    (htr : i = tree.root ∨ shouldTrack opts (tree.displayName i) = true) :
    ¬(i ≠ tree.root ∧ shouldTrack opts (tree.displayName i) = false) := by
  rcases htr with h | h
  · exact fun hc => hc.1 h
  · intro hc
    rw [h] at hc
    exact Bool.noConfusion hc.2

theorem runHook_before_eq (tree : Tree) (opts : TracingOptions) (i : Nat)
    (op : String) (ext : Option Nat) (now : Time) (s : GlobalState)
    (htr : i = tree.root ∨ shouldTrack opts (tree.displayName i) = true) :
    runHook tree opts i op true ext now s =
      beforeHookBody i op ext now (ensureRootSpan tree i ext s) := by
  unfold runHook
  rw [if_neg (tracked_not_skip tree opts i htr)]
  rfl

theorem runHook_after_eq (tree : Tree) (opts : TracingOptions) (i : Nat)
    (op : String) (ext : Option Nat) (now : Time) (s : GlobalState)
    (htr : i = tree.root ∨ shouldTrack opts (tree.displayName i) = true) :
    runHook tree opts i op false ext now s =
      afterHookBody opts i op now (ensureRootSpan tree i ext s) := by
  unfold runHook
  rw [if_neg (tracked_not_skip tree opts i htr)]
  rfl

theorem runHook_skip_eq (tree : Tree) (opts : TracingOptions) (i : Nat)
    (op : String) (isBefore : Bool) (ext : Option Nat) (now : Time)
    (s : GlobalState) (h1 : i ≠ tree.root)
    (h2 : shouldTrack opts (tree.displayName i) = false) :
    runHook tree opts i op isBefore ext now s = s := by
  unfold runHook
  rw [if_pos ⟨h1, h2⟩, ensureRootSpan_notRoot tree i ext s h1]

theorem afterHookBody_some (opts : TracingOptions) (i : Nat) (op : String)
    (now : Time) (s : GlobalState) (sp : Nat)
    (hsp : s.sentrySpans i op = some sp) :
    afterHookBody opts i op now s =
      finishRootSpan i now opts.timeout now
        { s with endEvents := s.endEvents ++ [EndEvent.mk sp none now] } := by
  unfold afterHookBody
  rw [hsp]

theorem afterHookBody_none (opts : TracingOptions) (i : Nat) (op : String)
    (now : Time) (s : GlobalState) (hsp : s.sentrySpans i op = none) :
    afterHookBody opts i op now s = s := by
  unfold afterHookBody
  rw [hsp]

theorem finishRootSpan_timerOf_self (i : Nat) (ts timeout now : Time)
    (s : GlobalState) :
    (finishRootSpan i ts timeout now s).timerOf i = some s.nextTimer := by
  unfold finishRootSpan
  simp

theorem finishRootSpan_mem_new (i : Nat) (ts timeout now : Time)
    (s : GlobalState) :
    TimerRec.mk s.nextTimer (now + timeout) ts i ∈ (finishRootSpan i ts timeout now s).timers := by
  unfold finishRootSpan
  cases s.timerOf i <;> simp

theorem finishRootSpan_nextTimer (i : Nat) (ts timeout now : Time)
    (s : GlobalState) :
    (finishRootSpan i ts timeout now s).nextTimer = s.nextTimer + 1 := rfl

/-! ### C8 -/

/-- C8 counterexample: the root-span ensure-started step is not confined
to before-hook handling.  Firing an after-hook (`isBefore = false`) on
the root instance, with an active external span and no root span yet,
creates a root span. -/
theorem c8_counterexample :
    initState.rootSpan = none ∧
    (runHook treeA optsA 0 "mount" false (some 5) 0 initState).rootSpan = some 0 := by
  decide

/-- C8 amended: the ensure-started step runs at the start of every hook
firing on the root instance — after-hooks as well as before-hooks.  It
only transitions Idle to Active: the stored root span changes exactly
when the instance is the root, no root span is stored, and an external
active span exists, in which case exactly one fresh root span is created
and stored; in every other case (and on every non-root instance) the
stored root span is unchanged by the hook. -/
theorem c8_amended (tree : Tree) (opts : TracingOptions) (i : Nat)
    (op : String) (isBefore : Bool) (ext : Option Nat) (now : Time)
    (s : GlobalState) :
    (runHook tree opts i op isBefore ext now s).rootSpan =
      (if i = tree.root ∧ s.rootSpan = none ∧ ext.isSome
        then some s.nextSpan else s.rootSpan) ∧
    (runHook tree opts i op isBefore ext now s).rootSpanIds =
      (if i = tree.root ∧ s.rootSpan = none ∧ ext.isSome
        then s.rootSpanIds ++ [s.nextSpan] else s.rootSpanIds) := by
  unfold runHook
  by_cases hskip : i ≠ tree.root ∧ shouldTrack opts (tree.displayName i) = false
  · rw [if_pos hskip]
    exact ⟨ensureRootSpan_rootSpan tree i ext s, ensureRootSpan_rootSpanIds tree i ext s⟩
  · rw [if_neg hskip]
    cases isBefore with
    | true =>
      rw [if_pos rfl]
      rw [beforeHookBody_rootSpan, beforeHookBody_rootSpanIds]
      exact ⟨ensureRootSpan_rootSpan tree i ext s, ensureRootSpan_rootSpanIds tree i ext s⟩
    | false =>
      simp only [Bool.false_eq_true, if_false]
      rw [afterHookBody_rootSpan, afterHookBody_rootSpanIds]
      exact ⟨ensureRootSpan_rootSpan tree i ext s, ensureRootSpan_rootSpanIds tree i ext s⟩

/-! ### C2 counterexample -/

/-- C2 counterexample: after instance 1 completes `mount` at time 1 and
instance 2 completes `mount` at time 3 (same tree, same root), the tree
holds two live close timers at once — arming the timer on instance 2 did
not cancel the pending timer held by instance 1, because the timer
handle is stored per instance, not per root. -/
theorem c2_counterexample :
    (runEvents treeA optsA initState c2evs).timers.length = 2 ∧
    (runEvents treeA optsA initState c2evs).timers.map TimerRec.owner = [1, 2] := by
  decide

/-! ### C3 counterexample -/

/-- C3 counterexample: completions happen at times 1 (root) and 7
(instance 1), an interval of 6 < timeout 10, yet the root span is closed
by instance 0's un-cancelled timer at wall time 11 with the timestamp 1
captured at its scheduling — not at (last completion) + timeout = 17. -/
theorem c3_counterexample :
    (7 : Nat) - 1 < 10 ∧
    rootCloses (runAll treeA optsA c3evs) = [EndEvent.mk 0 (some 1) 11] ∧
    (11 : Nat) ≠ 7 + 10 := by
  decide

/-! ### C4 counterexample -/

/-- C4 counterexample: the after-hook on instance 1 ends the open span 0
(the only end event), but the entry for `mount` is still present in the
instance's operation-span map afterwards — it is not removed. -/
theorem c4_counterexample :
    c4s0.sentrySpans 1 "mount" = some 0 ∧
    c4s1.endEvents = [EndEvent.mk 0 none 5] ∧
    c4s1.sentrySpans 1 "mount" = some 0 := by
  decide

theorem ensureRootSpan_rootSpan_isSome (tree : Tree) (i x : Nat)
    (s : GlobalState) (hi : i = tree.root) :
    (ensureRootSpan tree i (some x) s).rootSpan.isSome = true := by
  unfold ensureRootSpan
  rw [if_pos hi]
  cases hr : s.rootSpan <;> simp [hr]

/-! ### C5 -/

/-- C5: (part A) if a before-hook fires on a tracked instance while a
span is still stored for that operation, the old span is ended (the
defensive close is the one end event emitted) and a different, fresh
span is stored in its place; (part B) two consecutive before-hooks for
the same operation on the same instance without an intervening
after-hook, followed by the eventual after-hook, end exactly two spans
in total — the stale one defensively at the second before-hook, the
second one normally — and the two ended spans are distinct, so no span
opened by these hooks is left unended. -/
theorem c5_defensive_close (tree : Tree) (opts : TracingOptions) (i : Nat)
    (op : String) (oldSp x : Nat) (now t1 t2 t3 : Time) (s sB : GlobalState)
    (htr : i = tree.root ∨ shouldTrack opts (tree.displayName i) = true) :
    (s.sentrySpans i op = some oldSp → oldSp < s.nextSpan →
      (runHook tree opts i op true (some x) now s).endEvents =
        s.endEvents ++ [EndEvent.mk oldSp none now] ∧
      ∃ b, (runHook tree opts i op true (some x) now s).sentrySpans i op = some b ∧
        oldSp ≠ b) ∧
    (sB.sentrySpans i op = none →
      ∃ a b, a ≠ b ∧
        (runHook tree opts i op false (some x) t3
          (runHook tree opts i op true (some x) t2
            (runHook tree opts i op true (some x) t1 sB))).endEvents =
          sB.endEvents ++ [EndEvent.mk a none t2, EndEvent.mk b none t3] ∧
        (runHook tree opts i op false (some x) t3
          (runHook tree opts i op true (some x) t2
            (runHook tree opts i op true (some x) t1 sB))).sentrySpans i op = some b) := by
  constructor
  · intro hsp hlt
    rw [runHook_before_eq tree opts i op (some x) now s htr]
    have hctx : ((ensureRootSpan tree i (some x) s).rootSpan.orElse
        (fun _ => some x)).isSome = true := by
      cases (ensureRootSpan tree i (some x) s).rootSpan <;> simp
    have hopen := beforeHookBody_open i op (some x) now (ensureRootSpan tree i (some x) s) hctx
    have hmap : (ensureRootSpan tree i (some x) s).sentrySpans i op = some oldSp := by
      rw [ensureRootSpan_sentrySpans]; exact hsp
    refine ⟨?_, ⟨(ensureRootSpan tree i (some x) s).nextSpan, hopen.1, ?_⟩⟩
    · rw [hopen.2.2, hmap, ensureRootSpan_endEvents]
    · exact Nat.ne_of_lt (lt_of_lt_of_le hlt (ensureRootSpan_nextSpan_ge tree i (some x) s))
  · intro hnone
    -- step 1: the first before-hook opens a fresh span, ends nothing
    rw [runHook_before_eq tree opts i op (some x) t1 sB htr]
    set e1 := ensureRootSpan tree i (some x) sB with he1
    have hctx1 : (e1.rootSpan.orElse (fun _ => some x)).isSome = true := by
      cases e1.rootSpan <;> simp
    have hopen1 := beforeHookBody_open i op (some x) t1 e1 hctx1
    set s1 := beforeHookBody i op (some x) t1 e1 with hs1
    have he1map : e1.sentrySpans i op = none := by
      rw [he1, ensureRootSpan_sentrySpans]; exact hnone
    have hev1 : s1.endEvents = sB.endEvents := by
      have h := hopen1.2.2
      rw [he1map] at h
      rw [hs1, h, he1, ensureRootSpan_endEvents, List.append_nil]
    -- step 2: ensure-started is a no-op on s1
    have hens2 : ensureRootSpan tree i (some x) s1 = s1 := by
      by_cases hi : i = tree.root
      · apply ensureRootSpan_noop_of_isSome
        rw [hs1, beforeHookBody_rootSpan, he1]
        exact ensureRootSpan_rootSpan_isSome tree i x sB hi
      · exact ensureRootSpan_notRoot tree i (some x) s1 hi
    rw [runHook_before_eq tree opts i op (some x) t2 s1 htr, hens2]
    have hctx2 : (s1.rootSpan.orElse (fun _ => some x)).isSome = true := by
      cases s1.rootSpan <;> simp
    have hopen2 := beforeHookBody_open i op (some x) t2 s1 hctx2
    set s2 := beforeHookBody i op (some x) t2 s1 with hs2
    have hev2 : s2.endEvents = sB.endEvents ++ [EndEvent.mk e1.nextSpan none t2] := by
      have h := hopen2.2.2
      rw [hopen1.1] at h
      rw [hs2, h, hev1]
    -- step 3: the after-hook ends the second span
    have hens3 : ensureRootSpan tree i (some x) s2 = s2 := by
      by_cases hi : i = tree.root
      · apply ensureRootSpan_noop_of_isSome
        rw [hs2, beforeHookBody_rootSpan, hs1, beforeHookBody_rootSpan, he1]
        exact ensureRootSpan_rootSpan_isSome tree i x sB hi
      · exact ensureRootSpan_notRoot tree i (some x) s2 hi
    rw [runHook_after_eq tree opts i op (some x) t3 s2 htr, hens3]
    have hm2 : s2.sentrySpans i op = some s1.nextSpan := hopen2.1
    rw [afterHookBody_some opts i op t3 s2 s1.nextSpan hm2]
    refine ⟨e1.nextSpan, s1.nextSpan, ?_, ?_, ?_⟩
    · rw [hopen1.2.1]
      exact Nat.ne_of_lt (Nat.lt_succ_self _)
    · rw [finishRootSpan_endEvents]
      show s2.endEvents ++ [EndEvent.mk s1.nextSpan none t3] = _
      rw [hev2, List.append_assoc]
      rfl
    · rw [finishRootSpan_sentrySpans]
      exact hm2

/-- C5 witness: the scenario run on concrete inputs — part A applied to
the state after one unanswered before-hook, part B applied to a fresh
tree. -/
theorem c5_defensive_close_witness :
    ((1 : Nat) = treeA.root ∨ shouldTrack optsA (treeA.displayName 1) = true) ∧
    c4s0.sentrySpans 1 "mount" = some 0 ∧ (0 : Nat) < c4s0.nextSpan ∧
    initState.sentrySpans 1 "mount" = none ∧
    ((runHook treeA optsA 1 "mount" true (some 7) 6 c4s0).endEvents =
      c4s0.endEvents ++ [EndEvent.mk 0 none 6] ∧
      ∃ b, (runHook treeA optsA 1 "mount" true (some 7) 6 c4s0).sentrySpans 1 "mount" =
        some b ∧ (0 : Nat) ≠ b) ∧
    (∃ a b, a ≠ b ∧
      (runHook treeA optsA 1 "mount" false (some 7) 3
        (runHook treeA optsA 1 "mount" true (some 7) 2
          (runHook treeA optsA 1 "mount" true (some 7) 1 initState))).endEvents =
        initState.endEvents ++ [EndEvent.mk a none 2, EndEvent.mk b none 3] ∧
      (runHook treeA optsA 1 "mount" false (some 7) 3
        (runHook treeA optsA 1 "mount" true (some 7) 2
          (runHook treeA optsA 1 "mount" true (some 7) 1 initState))).sentrySpans 1 "mount" =
        some b) := by
  have h := c5_defensive_close treeA optsA 1 "mount" 0 7 6 1 2 3 c4s0 initState
    (Or.inr (by decide))
  exact ⟨Or.inr (by decide), by decide, by decide, by decide,
    h.1 (by decide) (by decide), h.2 (by decide)⟩

/-! ### C4 -/

/-- C4 amended: for every tracked instance and operation, when the
after-hook fires and an open span exists for that operation, the hook
ends that span (a bare `end()` at the current time), leaves the
operation-span map entirely unchanged (the entry is NOT removed), and
arms the quiet-period close timer — stored on that instance — with the
completion timestamp, regardless of whether the instance is the root. -/
theorem c4_amended (tree : Tree) (opts : TracingOptions) (i : Nat)
    (op : String) (sp : Nat) (ext : Option Nat) (now : Time) (s : GlobalState)
    (htr : i = tree.root ∨ shouldTrack opts (tree.displayName i) = true)
    (hsp : s.sentrySpans i op = some sp) :
    (runHook tree opts i op false ext now s).sentrySpans = s.sentrySpans ∧
    (runHook tree opts i op false ext now s).endEvents =
      s.endEvents ++ [EndEvent.mk sp none now] ∧
    (runHook tree opts i op false ext now s).timerOf i = some s.nextTimer ∧
    TimerRec.mk s.nextTimer (now + opts.timeout) now i ∈
      (runHook tree opts i op false ext now s).timers ∧
    (runHook tree opts i op false ext now s).nextTimer = s.nextTimer + 1 := by
  rw [runHook_after_eq tree opts i op ext now s htr]
  have hsp1 : (ensureRootSpan tree i ext s).sentrySpans i op = some sp := by
    rw [ensureRootSpan_sentrySpans]; exact hsp
  rw [afterHookBody_some opts i op now _ sp hsp1]
  refine ⟨?_, ?_, ?_, ?_, ?_⟩
  · rw [finishRootSpan_sentrySpans]
    exact ensureRootSpan_sentrySpans tree i ext s
  · rw [finishRootSpan_endEvents]
    show (ensureRootSpan tree i ext s).endEvents ++ _ = _
    rw [ensureRootSpan_endEvents]
  · rw [finishRootSpan_timerOf_self]
    show some (ensureRootSpan tree i ext s).nextTimer = some s.nextTimer
    rw [ensureRootSpan_nextTimer]
  · have h := finishRootSpan_mem_new i now opts.timeout now
      { ensureRootSpan tree i ext s with
        endEvents := (ensureRootSpan tree i ext s).endEvents ++ [EndEvent.mk sp none now] }
    rw [show ({ ensureRootSpan tree i ext s with
        endEvents := (ensureRootSpan tree i ext s).endEvents ++ [EndEvent.mk sp none now] } :
        GlobalState).nextTimer = s.nextTimer from ensureRootSpan_nextTimer tree i ext s] at h
    exact h
  · rw [finishRootSpan_nextTimer]
    show (ensureRootSpan tree i ext s).nextTimer + 1 = s.nextTimer + 1
    rw [ensureRootSpan_nextTimer]

/-- C4 witness: the amended theorem applied to a concrete tracked child
instance with an open `mount` span. -/
theorem c4_amended_witness :
    ((1 : Nat) = treeA.root ∨ shouldTrack optsA (treeA.displayName 1) = true) ∧
    c4s0.sentrySpans 1 "mount" = some 0 ∧
    (runHook treeA optsA 1 "mount" false (some 7) 5 c4s0).sentrySpans = c4s0.sentrySpans ∧
    (runHook treeA optsA 1 "mount" false (some 7) 5 c4s0).endEvents =
      c4s0.endEvents ++ [EndEvent.mk 0 none 5] := by
  have h := c4_amended treeA optsA 1 "mount" 0 (some 7) 5 c4s0
    (Or.inr (by decide)) (by decide)
  exact ⟨Or.inr (by decide), by decide, h.1, h.2.1⟩

/-! ### C6 -/

/-- C6: (a) a before-hook firing with neither a stored root span nor an
externally active span changes nothing at all; (b) an after-hook firing
with no stored span for its operation is a silent no-op — the span map,
the end-event log, the pending timers and every timer handle are
untouched (no error path exists, no warning is emitted by the hook
bodies, no close timer is armed); (c) when a context is present a span
is opened: the root's stored root span serves as starting context if it
exists (even with no externally active span), else the externally
active span does. -/
theorem c6_missing_context (tree : Tree) (opts : TracingOptions) (i : Nat)
    (op : String) (x r : Nat) (ext : Option Nat) (now : Time) (s : GlobalState) :
    (s.rootSpan = none → runHook tree opts i op true none now s = s) ∧
    (s.sentrySpans i op = none →
      (runHook tree opts i op false ext now s).sentrySpans = s.sentrySpans ∧
      (runHook tree opts i op false ext now s).endEvents = s.endEvents ∧
      (runHook tree opts i op false ext now s).timers = s.timers ∧
      (runHook tree opts i op false ext now s).timerOf = s.timerOf) ∧
    ((i = tree.root ∨ shouldTrack opts (tree.displayName i) = true) →
      s.rootSpan = some r →
      (runHook tree opts i op true ext now s).sentrySpans i op = some s.nextSpan) ∧
    ((i = tree.root ∨ shouldTrack opts (tree.displayName i) = true) →
      i ≠ tree.root → s.rootSpan = none →
      (runHook tree opts i op true (some x) now s).sentrySpans i op = some s.nextSpan) := by
  refine ⟨?_, ?_, ?_, ?_⟩
  · intro hroot
    by_cases hskip : i ≠ tree.root ∧ shouldTrack opts (tree.displayName i) = false
    · exact runHook_skip_eq tree opts i op true none now s hskip.1 hskip.2
    · have htr : i = tree.root ∨ shouldTrack opts (tree.displayName i) = true := by
        by_cases hi : i = tree.root
        · exact Or.inl hi
        · right
          cases hst : shouldTrack opts (tree.displayName i) with
          | true => rfl
          | false => exact absurd ⟨hi, hst⟩ hskip
      rw [runHook_before_eq tree opts i op none now s htr, ensureRootSpan_ext_none]
      unfold beforeHookBody
      rw [hroot]
      rfl
  · intro hnone
    by_cases hskip : i ≠ tree.root ∧ shouldTrack opts (tree.displayName i) = false
    · rw [runHook_skip_eq tree opts i op false ext now s hskip.1 hskip.2]
      exact ⟨rfl, rfl, rfl, rfl⟩
    · have htr : i = tree.root ∨ shouldTrack opts (tree.displayName i) = true := by
        by_cases hi : i = tree.root
        · exact Or.inl hi
        · right
          cases hst : shouldTrack opts (tree.displayName i) with
          | true => rfl
          | false => exact absurd ⟨hi, hst⟩ hskip
      rw [runHook_after_eq tree opts i op ext now s htr]
      rw [afterHookBody_none opts i op now _ (by rw [ensureRootSpan_sentrySpans]; exact hnone)]
      exact ⟨ensureRootSpan_sentrySpans tree i ext s, ensureRootSpan_endEvents tree i ext s,
        ensureRootSpan_timers tree i ext s, ensureRootSpan_timerOf tree i ext s⟩
  · intro htr hroot
    rw [runHook_before_eq tree opts i op ext now s htr,
      ensureRootSpan_noop_of_isSome tree i ext s (by rw [hroot]; rfl)]
    have hctx : (s.rootSpan.orElse (fun _ => ext)).isSome = true := by
      rw [hroot]; rfl
    exact (beforeHookBody_open i op ext now s hctx).1
  · intro htr hi hroot
    rw [runHook_before_eq tree opts i op (some x) now s htr,
      ensureRootSpan_notRoot tree i (some x) s hi]
    have hctx : (s.rootSpan.orElse (fun _ => some x)).isSome = true := by
      rw [hroot]; rfl
    exact (beforeHookBody_open i op (some x) now s hctx).1

/-- C6 witness: applied on a fresh tree — a before-hook with no context
changes nothing; an after-hook with no stored span is a no-op; a child
before-hook under an external span alone, and under a stored root span
alone, both open a span. -/
theorem c6_missing_context_witness :
    initState.rootSpan = none ∧ initState.sentrySpans 1 "mount" = none ∧
    ((1 : Nat) = treeA.root ∨ shouldTrack optsA (treeA.displayName 1) = true) ∧
    (1 : Nat) ≠ treeA.root ∧ c4s0.rootSpan = none ∧
    runHook treeA optsA 1 "mount" true none 0 initState = initState ∧
    (runHook treeA optsA 1 "mount" false (some 3) 0 initState).endEvents =
      initState.endEvents ∧
    (runHook treeA optsA 1 "update" true (some 3) 0 c4s0).sentrySpans 1 "update" =
      some c4s0.nextSpan := by
  have h := c6_missing_context treeA optsA 1 "mount" 3 0 (some 3) 0 initState
  have h2 := c6_missing_context treeA optsA 1 "update" 3 0 (some 3) 0 c4s0
  exact ⟨by decide, by decide, Or.inr (by decide), by decide, by decide,
    h.1 (by decide), (h.2.1 (by decide)).2.1,
    h2.2.2.2 (Or.inr (by decide)) (by decide) (by decide)⟩

/-! ### C7 -/

/-- C7: the tracking filter.  (i) With a name list, a non-root instance
whose name is not in the list produces nothing: any hook firing on it
leaves the state unchanged.  (ii) With a name list containing the
instance's name, a before-hook under an active external span opens a
span.  (iii) With the boolean `false` — or with the option absent — any
hook on a non-root instance leaves the state unchanged.  (iv) With the
boolean `true`, a before-hook under an active external span opens a
span.  (v) The tree root is always tracked: whatever the filter
configuration, a before-hook on the root under an active external span
opens a span. -/
theorem c7_filter (tree : Tree) (opts : TracingOptions) (i : Nat)
    (op : String) (isBefore : Bool) (x : Nat) (now : Time) (s : GlobalState)
    (l : List String) :
    (i ≠ tree.root → opts.trackComponents = .names l → tree.displayName i ∉ l →
      runHook tree opts i op isBefore (some x) now s = s) ∧
    (i ≠ tree.root → opts.trackComponents = .names l → tree.displayName i ∈ l →
      (runHook tree opts i op true (some x) now s).sentrySpans i op ≠ none) ∧
    (i ≠ tree.root → opts.trackComponents = .flag false →
      runHook tree opts i op isBefore (some x) now s = s) ∧
    (i ≠ tree.root → opts.trackComponents = .absent →
      runHook tree opts i op isBefore (some x) now s = s) ∧
    (i ≠ tree.root → opts.trackComponents = .flag true →
      (runHook tree opts i op true (some x) now s).sentrySpans i op ≠ none) ∧
    (i = tree.root →
      (runHook tree opts i op true (some x) now s).sentrySpans i op ≠ none) := by
  have hopenNe : ∀ (s1 : GlobalState),
      (s1.rootSpan.orElse (fun _ => some x)).isSome = true →
      (beforeHookBody i op (some x) now s1).sentrySpans i op ≠ none := by
    intro s1 hctx h
    rw [(beforeHookBody_open i op (some x) now s1 hctx).1] at h
    exact Option.noConfusion h
  refine ⟨?_, ?_, ?_, ?_, ?_, ?_⟩
  · intro hi hcfg hmem
    refine runHook_skip_eq tree opts i op isBefore (some x) now s hi ?_
    unfold shouldTrack
    rw [hcfg]
    simpa using hmem
  · intro hi hcfg hmem
    have htr : i = tree.root ∨ shouldTrack opts (tree.displayName i) = true := by
      right
      unfold shouldTrack
      rw [hcfg]
      simpa using hmem
    rw [runHook_before_eq tree opts i op (some x) now s htr,
      ensureRootSpan_notRoot tree i (some x) s hi]
    exact hopenNe s (by cases s.rootSpan <;> simp)
  · intro hi hcfg
    refine runHook_skip_eq tree opts i op isBefore (some x) now s hi ?_
    unfold shouldTrack
    rw [hcfg]
  · intro hi hcfg
    refine runHook_skip_eq tree opts i op isBefore (some x) now s hi ?_
    unfold shouldTrack
    rw [hcfg]
  · intro hi hcfg
    have htr : i = tree.root ∨ shouldTrack opts (tree.displayName i) = true := by
      right
      unfold shouldTrack
      rw [hcfg]
    rw [runHook_before_eq tree opts i op (some x) now s htr,
      ensureRootSpan_notRoot tree i (some x) s hi]
    exact hopenNe s (by cases s.rootSpan <;> simp)
  · intro hi
    rw [runHook_before_eq tree opts i op (some x) now s (Or.inl hi)]
    exact hopenNe (ensureRootSpan tree i (some x) s)
      (by cases (ensureRootSpan tree i (some x) s).rootSpan <;> simp)

/-- C7 witness: a tree whose root is instance 0, a name-list filter
`["Foo"]`, instance 1 named `"Bar"` (skipped), instance 2 named `"Foo"`
(tracked), and the root (tracked regardless). -/
theorem c7_filter_witness :
    (1 : Nat) ≠ treeB.root ∧ optsB.trackComponents = .names ["Foo"] ∧
    treeB.displayName 1 ∉ ["Foo"] ∧ treeB.displayName 2 ∈ ["Foo"] ∧
    runHook treeB optsB 1 "mount" true (some 4) 0 initState = initState ∧
    (runHook treeB optsB 2 "mount" true (some 4) 0 initState).sentrySpans 2 "mount" ≠ none ∧
    (runHook treeB optsB 0 "mount" true (some 4) 0 initState).sentrySpans 0 "mount" ≠ none := by
  have h1 := c7_filter treeB optsB 1 "mount" true 4 0 initState ["Foo"]
  have h2 := c7_filter treeB optsB 2 "mount" true 4 0 initState ["Foo"]
  have h0 := c7_filter treeB optsB 0 "mount" true 4 0 initState ["Foo"]
  refine ⟨by decide, rfl, by decide, by decide,
    h1.1 (by decide) rfl (by decide),
    h2.2.1 (by decide) rfl (by decide),
    h0.2.2.2.2.2 (by decide)⟩

/-! ### C9: building the mixin hook table (`createTracingMixins`, lines 296-316) -/

/-- Lines 270-279: mapping from operation name to its (before, after)
lifecycle hook pair; any other name has no mapping. -/
def HOOKS (op : String) : Option (String × String) :=
  if op = "activate" then some ("activated", "deactivated")
  else if op = "create" then some ("beforeCreate", "created")
  else if op = "unmount" then some ("beforeUnmount", "unmounted")
  else if op = "destroy" then some ("beforeDestroy", "destroyed")
  else if op = "mount" then some ("beforeMount", "mounted")
  else if op = "update" then some ("beforeUpdate", "updated")
  else none

/-- Line 299, `filter((value, index, self) => self.indexOf(value) ===
index)`: keep the first occurrence of each value. -/
def jsDedup (l : List String) : List String :=
  (l.enum.filter (fun p => l.indexOf p.2 == p.1)).map Prod.snd

/-- One binding installed into the mixins object: hook name ↦ the
handler for (`operation`, before-or-after). -/
structure MixinEntry where
  hookName : String
  operation : String
  isBefore : Bool
deriving Repr, DecidableEq

def mixinEntriesFor (op : String) : List MixinEntry :=
  match HOOKS op with
  | some pr => [MixinEntry.mk pr.1 op true, MixinEntry.mk pr.2 op false]
  | none => []

def mixinWarnFor (op : String) : List String :=
  match HOOKS op with
  | some _ => []
  | none => ["Unknown hook: " ++ op]

/-- Lines 296-316: `hooks = (options.hooks || []).concat(DEFAULT_HOOKS)`
deduplicated; then for each operation in order, look up its hook pair —
if unknown, warn (`logger.warn('Unknown hook: ...')`) and continue;
otherwise bind both lifecycle hooks (`internalHooks[0]` as the before
hook) to handlers.  `DEFAULT_HOOKS` lives outside this file and is kept
abstract as the `defaults` argument.  Returns the installed bindings and
the warnings, each in emission order. -/
def buildMixins (cfgHooks : List String) (defaults : List String) :
    List MixinEntry × List String :=
  let hooks := jsDedup (cfgHooks ++ defaults)
  (hooks.flatMap mixinEntriesFor, hooks.flatMap mixinWarnFor)

theorem mem_jsDedup (l : List String) (a : String) : a ∈ jsDedup l ↔ a ∈ l := by
  unfold jsDedup
  constructor
  · intro h
    obtain ⟨p, hp, hpa⟩ := List.mem_map.mp h
    have hpe := (List.mem_filter.mp hp).1
    have := List.mem_enum_iff_getElem?.mp hpe
    subst hpa
    exact List.getElem?_mem this
  · intro h
    refine List.mem_map.mpr ⟨(l.indexOf a, a), List.mem_filter.mpr ⟨?_, ?_⟩, rfl⟩
    · exact List.mem_enum_iff_getElem?.mpr (by simpa using List.indexOf_get? h)
    · simp

theorem jsDedup_nodup (l : List String) : (jsDedup l).Nodup := by
  unfold jsDedup
  have henum : l.enum.Nodup :=
    List.Nodup.of_map Prod.fst (by rw [List.enum_map_fst]; exact List.nodup_range _)
  refine List.Nodup.map_on ?_ (henum.filter _)
  intro p hp q hq hpq
  have hpc := (List.mem_filter.mp hp).2
  have hqc := (List.mem_filter.mp hq).2
  have hpi : l.indexOf p.2 = p.1 := by simpa using hpc
  have hqi : l.indexOf q.2 = q.1 := by simpa using hqc
  have : p.1 = q.1 := by rw [← hpi, ← hqi, hpq]
  exact Prod.ext this hpq

theorem mixinEntriesFor_operation (op : String) (en : MixinEntry)
    (hen : en ∈ mixinEntriesFor op) : en.operation = op := by
  unfold mixinEntriesFor at hen
  cases h : HOOKS op with
  | some pr =>
    rw [h] at hen
    simp only [List.mem_cons, List.mem_singleton, List.not_mem_nil, or_false] at hen
    rcases hen with h2 | h2 <;> rw [h2]
  | none =>
    rw [h] at hen
    simp at hen

theorem entries_filter_of_not_mem (hooks : List String) (op : String)
    (hop : op ∉ hooks) :
    (hooks.flatMap mixinEntriesFor).filter (fun en => en.operation == op) = [] := by
  refine List.filter_eq_nil_iff.mpr ?_
  intro en hen
  obtain ⟨op2, hop2, hin⟩ := List.mem_flatMap.mp hen
  have heq := mixinEntriesFor_operation op2 en hin
  simp only [beq_iff_eq, heq]
  intro hcontra
  rw [hcontra] at hop2
  exact hop hop2

theorem entries_filter_of_mem (hooks : List String) (op : String)
    (hnd : hooks.Nodup) (hop : op ∈ hooks) :
    (hooks.flatMap mixinEntriesFor).filter (fun en => en.operation == op) =
      mixinEntriesFor op := by
  induction hooks with
  | nil => cases hop
  | cons q rest ih =>
    rw [List.flatMap_cons, List.filter_append]
    rcases List.mem_cons.mp hop with h | h
    · subst h
      have hnotin : op ∉ rest := (List.nodup_cons.mp hnd).1
      rw [entries_filter_of_not_mem rest op hnotin, List.append_nil]
      refine List.filter_eq_self.mpr ?_
      intro en hen
      simpa using mixinEntriesFor_operation op en hen
    · have hqne : q ≠ op := by
        rintro rfl
        exact (List.nodup_cons.mp hnd).1 h
      have hq0 : (mixinEntriesFor q).filter (fun en => en.operation == op) = [] := by
        refine List.filter_eq_nil_iff.mpr ?_
        intro en hen
        simpa [mixinEntriesFor_operation q en hen] using hqne
      rw [hq0, List.nil_append]
      exact ih (List.nodup_cons.mp hnd).2 h

/-- C9: building the hook table merges the configured operations with
the defaults (every configured or default operation survives into the
resolved list and nothing else does), removes duplicates (the resolved
list has no repeats), binds the hook pair of every known resolved
operation exactly once (the bindings carrying that operation are
exactly its before-hook binding followed by its after-hook binding),
and, for every resolved operation with no hook mapping, emits an
`Unknown hook` warning and installs no binding for it — the build is a
total function that never fails. -/
theorem c9_build_hooks (cfg defaults : List String) :
    (jsDedup (cfg ++ defaults)).Nodup ∧
    (∀ op, op ∈ jsDedup (cfg ++ defaults) ↔ (op ∈ cfg ∨ op ∈ defaults)) ∧
    (∀ op ∈ jsDedup (cfg ++ defaults), ∀ b a, HOOKS op = some (b, a) →
      (buildMixins cfg defaults).1.filter (fun en => en.operation == op) =
        [MixinEntry.mk b op true, MixinEntry.mk a op false]) ∧
    (∀ op ∈ jsDedup (cfg ++ defaults), HOOKS op = none →
      ("Unknown hook: " ++ op) ∈ (buildMixins cfg defaults).2 ∧
      (buildMixins cfg defaults).1.filter (fun en => en.operation == op) = []) := by
  refine ⟨jsDedup_nodup _, ?_, ?_, ?_⟩
  · intro op
    rw [mem_jsDedup, List.mem_append]
  · intro op hop b a hba
    unfold buildMixins
    rw [entries_filter_of_mem _ op (jsDedup_nodup _) hop]
    unfold mixinEntriesFor
    rw [hba]
  · intro op hop hnone
    constructor
    · unfold buildMixins
      refine List.mem_flatMap.mpr ⟨op, hop, ?_⟩
      unfold mixinWarnFor
      rw [hnone]
      exact List.mem_singleton.mpr rfl
    · unfold buildMixins
      rw [entries_filter_of_mem _ op (jsDedup_nodup _) hop]
      unfold mixinEntriesFor
      rw [hnone]

/-- C9 witness: configuration `["destroy", "bogus", "mount"]` merged
with defaults `["activate", "mount", "update"]` — `mount` deduplicated,
`bogus` warned and skipped, `destroy` bound exactly once. -/
theorem c9_build_hooks_witness :
    ("destroy" ∈ jsDedup (["destroy", "bogus", "mount"] ++ ["activate", "mount", "update"]) ∧
      HOOKS "destroy" = some ("beforeDestroy", "destroyed")) ∧
    ("bogus" ∈ jsDedup (["destroy", "bogus", "mount"] ++ ["activate", "mount", "update"]) ∧
      HOOKS "bogus" = none) ∧
    (buildMixins ["destroy", "bogus", "mount"] ["activate", "mount", "update"]).1.filter
      (fun en => en.operation == "destroy") =
      [MixinEntry.mk "beforeDestroy" "destroy" true,
       MixinEntry.mk "destroyed" "destroy" false] ∧
    ("Unknown hook: " ++ "bogus") ∈
      (buildMixins ["destroy", "bogus", "mount"] ["activate", "mount", "update"]).2 := by
  have h := c9_build_hooks ["destroy", "bogus", "mount"] ["activate", "mount", "update"]
  refine ⟨⟨by decide, by decide⟩, ⟨by decide, by decide⟩,
    h.2.2.1 "destroy" (by decide) "beforeDestroy" "destroyed" (by decide),
    (h.2.2.2 "bogus" (by decide) (by decide)).1⟩

/-! ### C10: `getCumulativeLayoutShift` / `getWebVital` (lines 192-244)

JavaScript partiality is made explicit: the function returns
`Except String _`, where `.error` models the `TypeError` thrown when a
property of `undefined` is dereferenced.  Numbers are embedded as `ℚ`
(no property below depends on float rounding); DOM nodes as `Nat`, with
the external `record.mirror.getId` abstracted as a function parameter,
like the external `browserPerformanceTimeOrigin`. -/

/-- A layout-shift attribution: `node?: Node` (the rect fields are never
read by this code path). -/
structure LayoutShiftAttribution where
  node : Option Nat

/-- A performance entry as read by `getCumulativeLayoutShift`: only the
optional `sources` attribution list is accessed. -/
structure CLSEntry where
  sources : Option (List LayoutShiftAttribution)

/-- The web-vitals `Metric` interface (value, rating, entries). -/
structure Metric where
  value : ℚ
  rating : String
  entries : List CLSEntry

structure WebVitalData where
  value : ℚ
  size : ℚ
  rating : String
  nodeId : Option Int
deriving DecidableEq

/-- `ReplayPerformanceEntry<WebVitalData>`; the source's `end` field is
called `endTime` (`end` is reserved in Lean). -/
structure ReplayPerformanceEntry where
  type : String
  name : String
  start : ℚ
  endTime : ℚ
  data : WebVitalData
deriving DecidableEq

/-- Lines 82-86: `(browserPerformanceTimeOrigin + time) / 1000`. -/
def getAbsoluteTime (timeOrigin : ℚ) (time : ℚ) : ℚ := (timeOrigin + time) / 1000

/-- Lines 220-244: build the web-vital replay entry; `nodeId` is
`record.mirror.getId(node)` when a node is given, else undefined. -/
def getWebVital (timeOrigin : ℚ) (getId : Nat → Int) (metric : Metric)
    (name : String) (node : Option Nat) : ReplayPerformanceEntry :=
  let value := metric.value
  let rating := metric.rating
  let endT := getAbsoluteTime timeOrigin value
  { type := "web-vital"
    name := name
    start := endT
    endTime := endT
    data :=
      { value := value
        size := value
        rating := rating
        nodeId := node.map getId } }

/-- Lines 192-197: `const firstEntry = metric.entries[0]; const node =
firstEntry ? (firstEntry.sources ? firstEntry.sources[0].node :
undefined) : undefined` — when `sources` is a present-but-empty array it
is truthy, `sources[0]` is `undefined`, and reading `.node` throws. -/
def getCumulativeLayoutShift (timeOrigin : ℚ) (getId : Nat → Int)
    (metric : Metric) : Except String ReplayPerformanceEntry :=
  match metric.entries.head? with
  | none => .ok (getWebVital timeOrigin getId metric "cumulative-layout-shift" none)
  | some firstEntry =>
    match firstEntry.sources with
    | none => .ok (getWebVital timeOrigin getId metric "cumulative-layout-shift" none)
    | some sources =>
      match sources.head? with
      | none => .error "TypeError: Cannot read properties of undefined (reading node)"
      | some s0 => .ok (getWebVital timeOrigin getId metric "cumulative-layout-shift" s0.node)

/-- C10: `getCumulativeLayoutShift` is not total.  (1) When the metric's
first entry carries a `sources` list that is present but empty, the
function fails (dereference of a missing `sources[0]`) instead of
returning an entry with an undefined node id.  (2) With no entries at
all, it returns normally with `nodeId` undefined.  (3) With a first
entry whose `sources` is absent, it returns normally with `nodeId`
undefined. -/
theorem c10_cls_partiality (timeOrigin : ℚ) (getId : Nat → Int)
    (m : Metric) (fe : CLSEntry) (rest : List CLSEntry) :
    (m.entries = fe :: rest → fe.sources = some [] →
      getCumulativeLayoutShift timeOrigin getId m =
        .error "TypeError: Cannot read properties of undefined (reading node)") ∧
    (m.entries = [] →
      ∃ out, getCumulativeLayoutShift timeOrigin getId m = .ok out ∧
        out.data.nodeId = none) ∧
    (m.entries = fe :: rest → fe.sources = none →
      ∃ out, getCumulativeLayoutShift timeOrigin getId m = .ok out ∧
        out.data.nodeId = none) := by
  refine ⟨?_, ?_, ?_⟩
  · intro hent hsrc
    unfold getCumulativeLayoutShift
    rw [hent]
    simp only [List.head?_cons]
    rw [hsrc]
    rfl
  · intro hent
    refine ⟨getWebVital timeOrigin getId m "cumulative-layout-shift" none, ?_, rfl⟩
    unfold getCumulativeLayoutShift
    rw [hent]
    rfl
  · intro hent hsrc
    refine ⟨getWebVital timeOrigin getId m "cumulative-layout-shift" none, ?_, rfl⟩
    unfold getCumulativeLayoutShift
    rw [hent]
    simp only [List.head?_cons]
    rw [hsrc]

/-- C10 witness: the three cases at concrete metrics (CLS value 0,
rating `"good"`). -/
theorem c10_cls_partiality_witness :
    (Metric.mk 0 "good" [CLSEntry.mk (some [])]).entries = [CLSEntry.mk (some [])] ∧
    (CLSEntry.mk (some (([] : List LayoutShiftAttribution)))).sources =
      some ([] : List LayoutShiftAttribution) ∧
    (Metric.mk 0 "good" []).entries = [] ∧
    (CLSEntry.mk none).sources = none ∧
    getCumulativeLayoutShift 0 (fun _ => 0) (Metric.mk 0 "good" [CLSEntry.mk (some [])]) =
      .error "TypeError: Cannot read properties of undefined (reading node)" ∧
    (∃ out, getCumulativeLayoutShift 0 (fun _ => 0) (Metric.mk 0 "good" []) = .ok out ∧
      out.data.nodeId = none) ∧
    (∃ out, getCumulativeLayoutShift 0 (fun _ => 0) (Metric.mk 0 "good" [CLSEntry.mk none]) =
      .ok out ∧ out.data.nodeId = none) := by
  have h1 := c10_cls_partiality 0 (fun _ => 0) (Metric.mk 0 "good" [CLSEntry.mk (some [])])
    (CLSEntry.mk (some [])) []
  have h2 := c10_cls_partiality 0 (fun _ => 0) (Metric.mk 0 "good" [])
    (CLSEntry.mk none) []
  have h3 := c10_cls_partiality 0 (fun _ => 0) (Metric.mk 0 "good" [CLSEntry.mk none])
    (CLSEntry.mk none) []
  exact ⟨rfl, rfl, rfl, rfl, h1.1 rfl rfl, h2.2.1 rfl, h3.2.2 rfl rfl⟩

/-! ### Branch characterizations used by the invariant proofs -/

theorem beforeHookBody_ctx_none (i : Nat) (op : String) (ext : Option Nat)
    (now : Time) (s : GlobalState)
    (hctx : s.rootSpan.orElse (fun _ => ext) = none) :
    beforeHookBody i op ext now s = s := by
  unfold beforeHookBody
  rw [hctx]

theorem beforeHookBody_some_old (i : Nat) (op : String) (ext : Option Nat)
    (now : Time) (s : GlobalState) (c oldSp : Nat)
    (hctx : s.rootSpan.orElse (fun _ => ext) = some c)
    (hold : s.sentrySpans i op = some oldSp) :
    beforeHookBody i op ext now s =
      { s with
        sentrySpans := fun j q =>
          if j = i ∧ q = op then some s.nextSpan else s.sentrySpans j q,
        nextSpan := s.nextSpan + 1,
        endEvents := s.endEvents ++ [EndEvent.mk oldSp none now] } := by
  unfold beforeHookBody
  rw [hctx, hold]

theorem beforeHookBody_none_old (i : Nat) (op : String) (ext : Option Nat)
    (now : Time) (s : GlobalState) (c : Nat)
    (hctx : s.rootSpan.orElse (fun _ => ext) = some c)
    (hold : s.sentrySpans i op = none) :
    beforeHookBody i op ext now s =
      { s with
        sentrySpans := fun j q =>
          if j = i ∧ q = op then some s.nextSpan else s.sentrySpans j q,
        nextSpan := s.nextSpan + 1 } := by
  unfold beforeHookBody
  rw [hctx, hold]

theorem ensureRootSpan_create (tree : Tree) (i x : Nat) (s : GlobalState)
    (hi : i = tree.root) (hr : s.rootSpan = none) :
    ensureRootSpan tree i (some x) s =
      { s with
        rootSpan := some s.nextSpan,
        rootSpanIds := s.rootSpanIds ++ [s.nextSpan],
        nextSpan := s.nextSpan + 1 } := by
  unfold ensureRootSpan
  rw [if_pos hi, hr]

theorem fireTimer_rootSpan_some (t : TimerRec) (s : GlobalState) (sp : Nat)
    (hr : s.rootSpan = some sp) :
    fireTimer t s =
      { s with
        timers := s.timers.filter (fun u => u.id ≠ t.id),
        rootSpan := none,
        endEvents := s.endEvents ++ [EndEvent.mk sp (some t.payload) t.fireAt] } := by
  unfold fireTimer
  rw [show ({ s with timers := s.timers.filter (fun u => u.id ≠ t.id) } :
    GlobalState).rootSpan = some sp from hr]

theorem fireTimer_rootSpan_none (t : TimerRec) (s : GlobalState)
    (hr : s.rootSpan = none) :
    fireTimer t s = { s with timers := s.timers.filter (fun u => u.id ≠ t.id) } := by
  unfold fireTimer
  rw [show ({ s with timers := s.timers.filter (fun u => u.id ≠ t.id) } :
    GlobalState).rootSpan = none from hr]

/-! ### The reachable-state invariant behind C1 and C2 -/

theorem countP_append_one (es : List EndEvent) (ev : EndEvent)
    (p : EndEvent → Bool) :
    (es ++ [ev]).countP p = es.countP p + (if p ev then 1 else 0) := by
  rw [List.countP_append]
  simp [List.countP_cons]

theorem countP_zero_of_lt (es : List EndEvent) (n : Nat)
    (h : ∀ ev ∈ es, ev.span < n) :
    es.countP (fun ev => ev.span == n) = 0 := by
  refine List.countP_eq_zero.mpr ?_
  intro ev hev
  simpa using Nat.ne_of_lt (h ev hev)

/-- Invariant over every state reachable from `initState`, strong
enough to give: each root span is ended at most once, and each instance
holds at most one pending timer. -/
structure Inv (s : GlobalState) : Prop where
  mapLt : ∀ i op sp, s.sentrySpans i op = some sp → sp < s.nextSpan
  rootIdsLt : ∀ sp ∈ s.rootSpanIds, sp < s.nextSpan
  mapNotRootId : ∀ i op sp, s.sentrySpans i op = some sp → sp ∉ s.rootSpanIds
  curRootMem : ∀ sp, s.rootSpan = some sp → sp ∈ s.rootSpanIds
  endLt : ∀ ev ∈ s.endEvents, ev.span < s.nextSpan
  rootEndOnce : ∀ sp ∈ s.rootSpanIds, endCount s sp ≤ 1
  curRootUnended : ∀ sp, s.rootSpan = some sp → endCount s sp = 0
  timerIdsLt : ∀ t ∈ s.timers, t.id < s.nextTimer
  timerIdsNodup : (s.timers.map TimerRec.id).Nodup
  timerOwner : ∀ t ∈ s.timers, s.timerOf t.owner = some t.id

theorem inv_init : Inv initState := by
  constructor <;> simp [initState, endCount]

theorem inv_fireTimer (t : TimerRec) (s : GlobalState) (hs : Inv s) :
    Inv (fireTimer t s) := by
  cases hr : s.rootSpan with
  | none =>
    rw [fireTimer_rootSpan_none t s hr]
    refine ⟨hs.mapLt, hs.rootIdsLt, hs.mapNotRootId, ?_, hs.endLt, hs.rootEndOnce,
      ?_, ?_, ?_, ?_⟩
    · intro sp h; exact hs.curRootMem sp h
    · intro sp h; exact hs.curRootUnended sp h
    · intro u hu; exact hs.timerIdsLt u (List.mem_of_mem_filter hu)
    · exact ((List.filter_sublist _).map TimerRec.id).nodup hs.timerIdsNodup
    · intro u hu; exact hs.timerOwner u (List.mem_of_mem_filter hu)
  | some sp =>
    rw [fireTimer_rootSpan_some t s sp hr]
    have hmem : sp ∈ s.rootSpanIds := hs.curRootMem sp hr
    refine ⟨hs.mapLt, hs.rootIdsLt, hs.mapNotRootId, ?_, ?_, ?_, ?_, ?_, ?_, ?_⟩
    · intro sp2 h; exact Option.noConfusion h
    · intro ev hev
      rcases List.mem_append.mp hev with h | h
      · exact hs.endLt ev h
      · rw [List.mem_singleton.mp h]
        exact hs.rootIdsLt sp hmem
    · intro sp2 hsp2
      show endCountL _ _ ≤ 1
      unfold endCountL
      rw [countP_append_one]
      by_cases he : sp = sp2
      · subst he
        have h0 : endCount s sp = 0 := hs.curRootUnended sp hr
        unfold endCount endCountL at h0
        simp [h0]
      · have : endCount s sp2 ≤ 1 := hs.rootEndOnce sp2 hsp2
        unfold endCount endCountL at this
        simpa [he] using this
    · intro sp2 h; exact Option.noConfusion h
    · intro u hu; exact hs.timerIdsLt u (List.mem_of_mem_filter hu)
    · exact ((List.filter_sublist _).map TimerRec.id).nodup hs.timerIdsNodup
    · intro u hu; exact hs.timerOwner u (List.mem_of_mem_filter hu)

theorem finishRootSpan_eq_some (i tid : Nat) (ts timeout now : Time)
    (s : GlobalState) (h : s.timerOf i = some tid) :
    finishRootSpan i ts timeout now s =
      { s with
        timers := clearTimeout tid s.timers ++
          [TimerRec.mk s.nextTimer (now + timeout) ts i],
        timerOf := fun j => if j = i then some s.nextTimer else s.timerOf j,
        nextTimer := s.nextTimer + 1 } := by
  unfold finishRootSpan
  rw [h]

theorem finishRootSpan_eq_none (i : Nat) (ts timeout now : Time)
    (s : GlobalState) (h : s.timerOf i = none) :
    finishRootSpan i ts timeout now s =
      { s with
        timers := s.timers ++ [TimerRec.mk s.nextTimer (now + timeout) ts i],
        timerOf := fun j => if j = i then some s.nextTimer else s.timerOf j,
        nextTimer := s.nextTimer + 1 } := by
  unfold finishRootSpan
  rw [h]

theorem inv_finishRootSpan (i : Nat) (ts timeout now : Time) (s : GlobalState)
    (hs : Inv s) : Inv (finishRootSpan i ts timeout now s) := by
  cases h : s.timerOf i with
  | some tid =>
    rw [finishRootSpan_eq_some i tid ts timeout now s h]
    refine ⟨hs.mapLt, hs.rootIdsLt, hs.mapNotRootId, hs.curRootMem, hs.endLt,
      hs.rootEndOnce, hs.curRootUnended, ?_, ?_, ?_⟩
    · intro u hu
      rcases List.mem_append.mp hu with h2 | h2
      · exact Nat.lt_succ_of_lt (hs.timerIdsLt u (List.mem_of_mem_filter h2))
      · rw [List.mem_singleton.mp h2]
        exact Nat.lt_succ_self _
    · rw [List.map_append]
      refine List.Nodup.append
        (((List.filter_sublist _).map TimerRec.id).nodup hs.timerIdsNodup)
        (List.nodup_singleton _) ?_
      intro a ha hb
      obtain ⟨u, hu, hua⟩ := List.mem_map.mp ha
      have : a < s.nextTimer := by
        rw [← hua]; exact hs.timerIdsLt u (List.mem_of_mem_filter hu)
      rw [List.mem_singleton.mp hb] at this
      exact Nat.lt_irrefl _ this
    · intro u hu
      rcases List.mem_append.mp hu with h2 | h2
      · have humem := List.mem_of_mem_filter h2
        have hune : u.owner ≠ i := by
          intro heq
          have := hs.timerOwner u humem
          rw [heq, h] at this
          have hid : u.id = tid := Option.some.inj this.symm
          have := (List.mem_filter.mp h2).2
          rw [hid] at this
          simp at this
        simp only [if_neg hune]
        exact hs.timerOwner u humem
      · rw [List.mem_singleton.mp h2]
        simp
  | none =>
    rw [finishRootSpan_eq_none i ts timeout now s h]
    refine ⟨hs.mapLt, hs.rootIdsLt, hs.mapNotRootId, hs.curRootMem, hs.endLt,
      hs.rootEndOnce, hs.curRootUnended, ?_, ?_, ?_⟩
    · intro u hu
      rcases List.mem_append.mp hu with h2 | h2
      · exact Nat.lt_succ_of_lt (hs.timerIdsLt u h2)
      · rw [List.mem_singleton.mp h2]
        exact Nat.lt_succ_self _
    · rw [List.map_append]
      refine List.Nodup.append hs.timerIdsNodup (List.nodup_singleton _) ?_
      intro a ha hb
      obtain ⟨u, hu, hua⟩ := List.mem_map.mp ha
      have : a < s.nextTimer := by rw [← hua]; exact hs.timerIdsLt u hu
      rw [List.mem_singleton.mp hb] at this
      exact Nat.lt_irrefl _ this
    · intro u hu
      rcases List.mem_append.mp hu with h2 | h2
      · have hune : u.owner ≠ i := by
          intro heq
          have := hs.timerOwner u h2
          rw [heq, h] at this
          exact Option.noConfusion this
        simp only [if_neg hune]
        exact hs.timerOwner u h2
      · rw [List.mem_singleton.mp h2]
        simp

theorem inv_ensureRootSpan (tree : Tree) (i : Nat) (ext : Option Nat)
    (s : GlobalState) (hs : Inv s) : Inv (ensureRootSpan tree i ext s) := by
  by_cases hi : i = tree.root
  · cases hx : ext with
    | none => rw [ensureRootSpan_ext_none]; exact hs
    | some x =>
      cases hr : s.rootSpan with
      | some r =>
        rw [ensureRootSpan_noop_of_isSome tree i (some x) s (by rw [hr]; rfl)]
        exact hs
      | none =>
        rw [ensureRootSpan_create tree i x s hi hr]
        refine ⟨?_, ?_, ?_, ?_, ?_, ?_, ?_, hs.timerIdsLt, hs.timerIdsNodup,
          hs.timerOwner⟩
        · intro j q sp h
          exact Nat.lt_succ_of_lt (hs.mapLt j q sp h)
        · intro sp hsp
          rcases List.mem_append.mp hsp with h2 | h2
          · exact Nat.lt_succ_of_lt (hs.rootIdsLt sp h2)
          · rw [List.mem_singleton.mp h2]
            exact Nat.lt_succ_self _
        · intro j q sp h hmem
          rcases List.mem_append.mp hmem with h2 | h2
          · exact hs.mapNotRootId j q sp h h2
          · rw [List.mem_singleton.mp h2] at h
            exact Nat.lt_irrefl _ (hs.mapLt j q _ h)
        · intro sp h
          rw [← Option.some.inj h]
          exact List.mem_append_right _ (List.mem_singleton.mpr rfl)
        · intro ev hev
          exact Nat.lt_succ_of_lt (hs.endLt ev hev)
        · intro sp hsp
          rcases List.mem_append.mp hsp with h2 | h2
          · exact hs.rootEndOnce sp h2
          · rw [List.mem_singleton.mp h2]
            show endCountL s.endEvents s.nextSpan ≤ 1
            unfold endCountL
            rw [countP_zero_of_lt s.endEvents s.nextSpan hs.endLt]
            exact Nat.zero_le 1
        · intro sp h
          rw [← Option.some.inj h]
          show endCountL s.endEvents s.nextSpan = 0
          unfold endCountL
          exact countP_zero_of_lt s.endEvents s.nextSpan hs.endLt
  · rw [ensureRootSpan_notRoot tree i ext s hi]
    exact hs

theorem inv_beforeHookBody (i : Nat) (op : String) (ext : Option Nat)
    (now : Time) (s : GlobalState) (hs : Inv s) :
    Inv (beforeHookBody i op ext now s) := by
  cases hctx : s.rootSpan.orElse (fun _ => ext) with
  | none => rw [beforeHookBody_ctx_none i op ext now s hctx]; exact hs
  | some c =>
    cases hold : s.sentrySpans i op with
    | none =>
      rw [beforeHookBody_none_old i op ext now s c hctx hold]
      refine ⟨?_, ?_, ?_, hs.curRootMem, ?_, hs.rootEndOnce, hs.curRootUnended,
        hs.timerIdsLt, hs.timerIdsNodup, hs.timerOwner⟩
      · intro j q sp h
        have h2 : (if j = i ∧ q = op then some s.nextSpan else s.sentrySpans j q) =
          some sp := h
        show sp < s.nextSpan + 1
        by_cases hc : j = i ∧ q = op
        · rw [if_pos hc] at h2
          rw [← Option.some.inj h2]
          exact Nat.lt_succ_self _
        · rw [if_neg hc] at h2
          exact Nat.lt_succ_of_lt (hs.mapLt j q sp h2)
      · intro sp hsp
        exact Nat.lt_succ_of_lt (hs.rootIdsLt sp hsp)
      · intro j q sp h hmem
        have h2 : (if j = i ∧ q = op then some s.nextSpan else s.sentrySpans j q) =
          some sp := h
        have hmem2 : sp ∈ s.rootSpanIds := hmem
        by_cases hc : j = i ∧ q = op
        · rw [if_pos hc] at h2
          rw [← Option.some.inj h2] at hmem2
          exact Nat.lt_irrefl _ (hs.rootIdsLt _ hmem2)
        · rw [if_neg hc] at h2
          exact hs.mapNotRootId j q sp h2 hmem2
      · intro ev hev
        exact Nat.lt_succ_of_lt (hs.endLt ev hev)
    | some oldSp =>
      rw [beforeHookBody_some_old i op ext now s c oldSp hctx hold]
      have holdLt : oldSp < s.nextSpan := hs.mapLt i op oldSp hold
      have holdNotRoot : oldSp ∉ s.rootSpanIds := hs.mapNotRootId i op oldSp hold
      refine ⟨?_, ?_, ?_, hs.curRootMem, ?_, ?_, ?_,
        hs.timerIdsLt, hs.timerIdsNodup, hs.timerOwner⟩
      · intro j q sp h
        have h2 : (if j = i ∧ q = op then some s.nextSpan else s.sentrySpans j q) =
          some sp := h
        show sp < s.nextSpan + 1
        by_cases hc : j = i ∧ q = op
        · rw [if_pos hc] at h2
          rw [← Option.some.inj h2]
          exact Nat.lt_succ_self _
        · rw [if_neg hc] at h2
          exact Nat.lt_succ_of_lt (hs.mapLt j q sp h2)
      · intro sp hsp
        exact Nat.lt_succ_of_lt (hs.rootIdsLt sp hsp)
      · intro j q sp h hmem
        have h2 : (if j = i ∧ q = op then some s.nextSpan else s.sentrySpans j q) =
          some sp := h
        have hmem2 : sp ∈ s.rootSpanIds := hmem
        by_cases hc : j = i ∧ q = op
        · rw [if_pos hc] at h2
          rw [← Option.some.inj h2] at hmem2
          exact Nat.lt_irrefl _ (hs.rootIdsLt _ hmem2)
        · rw [if_neg hc] at h2
          exact hs.mapNotRootId j q sp h2 hmem2
      · intro ev hev
        rcases List.mem_append.mp hev with h2 | h2
        · exact Nat.lt_succ_of_lt (hs.endLt ev h2)
        · rw [List.mem_singleton.mp h2]
          exact Nat.lt_succ_of_lt holdLt
      · intro sp hsp
        show endCountL _ _ ≤ 1
        unfold endCountL
        rw [countP_append_one]
        have hne : oldSp ≠ sp := fun he => holdNotRoot (he ▸ hsp)
        have h1 := hs.rootEndOnce sp hsp
        unfold endCount endCountL at h1
        simpa [hne] using h1
      · intro sp h
        have hsp : sp ∈ s.rootSpanIds := hs.curRootMem sp h
        show endCountL _ _ = 0
        unfold endCountL
        rw [countP_append_one]
        have hne : oldSp ≠ sp := fun he => holdNotRoot (he ▸ hsp)
        have h1 := hs.curRootUnended sp h
        unfold endCount endCountL at h1
        simpa [hne] using h1

theorem inv_afterHookBody (opts : TracingOptions) (i : Nat) (op : String)
    (now : Time) (s : GlobalState) (hs : Inv s) :
    Inv (afterHookBody opts i op now s) := by
  cases hold : s.sentrySpans i op with
  | none => rw [afterHookBody_none opts i op now s hold]; exact hs
  | some sp =>
    rw [afterHookBody_some opts i op now s sp hold]
    have hspLt : sp < s.nextSpan := hs.mapLt i op sp hold
    have hspNotRoot : sp ∉ s.rootSpanIds := hs.mapNotRootId i op sp hold
    refine inv_finishRootSpan i now opts.timeout now _
      ⟨hs.mapLt, hs.rootIdsLt, hs.mapNotRootId, hs.curRootMem, ?_, ?_, ?_,
        hs.timerIdsLt, hs.timerIdsNodup, hs.timerOwner⟩
    · intro ev hev
      rcases List.mem_append.mp hev with h2 | h2
      · exact hs.endLt ev h2
      · rw [List.mem_singleton.mp h2]
        exact hspLt
    · intro sp2 hsp2
      show endCountL _ _ ≤ 1
      unfold endCountL
      rw [countP_append_one]
      have hne : sp ≠ sp2 := fun he => hspNotRoot (he ▸ hsp2)
      have h1 := hs.rootEndOnce sp2 hsp2
      unfold endCount endCountL at h1
      simpa [hne] using h1
    · intro sp2 h
      have hsp2 : sp2 ∈ s.rootSpanIds := hs.curRootMem sp2 h
      show endCountL _ _ = 0
      unfold endCountL
      rw [countP_append_one]
      have hne : sp ≠ sp2 := fun he => hspNotRoot (he ▸ hsp2)
      have h1 := hs.curRootUnended sp2 h
      unfold endCount endCountL at h1
      simpa [hne] using h1

theorem inv_runHook (tree : Tree) (opts : TracingOptions) (i : Nat)
    (op : String) (isBefore : Bool) (ext : Option Nat) (now : Time)
    (s : GlobalState) (hs : Inv s) :
    Inv (runHook tree opts i op isBefore ext now s) := by
  unfold runHook
  by_cases hskip : i ≠ tree.root ∧ shouldTrack opts (tree.displayName i) = false
  · rw [if_pos hskip]
    exact inv_ensureRootSpan tree i ext s hs
  · rw [if_neg hskip]
    cases isBefore with
    | true =>
      rw [if_pos rfl]
      exact inv_beforeHookBody i op ext now _ (inv_ensureRootSpan tree i ext s hs)
    | false =>
      simp only [Bool.false_eq_true, if_false]
      exact inv_afterHookBody opts i op now _ (inv_ensureRootSpan tree i ext s hs)

theorem inv_fireDueAux (fuel : Nat) (bound : Time) (s : GlobalState)
    (hs : Inv s) : Inv (fireDueAux fuel bound s) := by
  induction fuel generalizing s with
  | zero => exact hs
  | succ n ih =>
    unfold fireDueAux
    cases pickDue s.timers bound with
    | none => exact hs
    | some t => exact ih (fireTimer t s) (inv_fireTimer t s hs)

theorem inv_fireDue (bound : Time) (s : GlobalState) (hs : Inv s) :
    Inv (fireDue bound s) :=
  inv_fireDueAux s.timers.length bound s hs

theorem inv_stepEvent (tree : Tree) (opts : TracingOptions) (s : GlobalState)
    (e : HookEvent) (hs : Inv s) : Inv (stepEvent tree opts s e) :=
  inv_runHook tree opts e.inst e.operation e.isBefore e.ext e.time _
    (inv_fireDue e.time s hs)

theorem inv_runEvents (tree : Tree) (opts : TracingOptions)
    (events : List HookEvent) (s : GlobalState) (hs : Inv s) :
    Inv (runEvents tree opts s events) := by
  induction events generalizing s with
  | nil => exact hs
  | cons e es ih =>
    exact ih (stepEvent tree opts s e) (inv_stepEvent tree opts s e hs)

theorem inv_runAll (tree : Tree) (opts : TracingOptions)
    (events : List HookEvent) : Inv (runAll tree opts events) :=
  inv_fireDue _ _ (inv_runEvents tree opts events initState inv_init)

/-! ### C1 and C2 (amended) -/

/-- The root starts a root span under an external span and completes one
`mount`; the close timer then fires. -/
def c1evs : List HookEvent :=
  [⟨0, 0, "mount", true, some 50⟩, ⟨1, 0, "mount", false, some 50⟩]

/-- C1: a root span, once created, is ended at most once.  Over any
run (any options, any tree, any sequence of hook events, every pending
timer allowed to fire), any span that was ever stored as the root span
receives at most one `end` call in total — once a close timer has ended
and cleared it, later timer firings find the slot empty and do nothing,
and operation-span `end` calls never target a root span. -/
theorem c1_root_span_end_once (tree : Tree) (opts : TracingOptions)
    (events : List HookEvent) (sp : Nat)
    (hsp : sp ∈ (runAll tree opts events).rootSpanIds) :
    endCount (runAll tree opts events) sp ≤ 1 :=
  (inv_runAll tree opts events).rootEndOnce sp hsp

/-- C1 witness: a run in which root span 0 is created and its close
timer fires. -/
theorem c1_root_span_end_once_witness :
    0 ∈ (runAll treeA optsA c1evs).rootSpanIds ∧
    endCount (runAll treeA optsA c1evs) 0 ≤ 1 :=
  ⟨by decide, c1_root_span_end_once treeA optsA c1evs 0 (by decide)⟩

theorem inv_perOwner (s : GlobalState) (hs : Inv s) (i : Nat) :
    (s.timers.filter (fun t => t.owner == i)).length ≤ 1 := by
  cases hf : s.timers.filter (fun t => t.owner == i) with
  | nil => simp
  | cons a rest =>
    cases rest with
    | nil => simp
    | cons b rest2 =>
      exfalso
      have ha : a ∈ s.timers.filter (fun t => t.owner == i) := by
        rw [hf]; exact List.mem_cons_self _ _
      have hb : b ∈ s.timers.filter (fun t => t.owner == i) := by
        rw [hf]; exact List.mem_cons_of_mem _ (List.mem_cons_self _ _)
      have hai : a.owner = i := by simpa using (List.mem_filter.mp ha).2
      have hbi : b.owner = i := by simpa using (List.mem_filter.mp hb).2
      have haid := hs.timerOwner a (List.mem_of_mem_filter ha)
      have hbid := hs.timerOwner b (List.mem_of_mem_filter hb)
      rw [hai] at haid
      rw [hbi] at hbid
      have hid : a.id = b.id := Option.some.inj (haid.symm.trans hbid)
      have hnd : ((s.timers.filter (fun t => t.owner == i)).map TimerRec.id).Nodup :=
        ((List.filter_sublist _).map TimerRec.id).nodup hs.timerIdsNodup
      rw [hf, List.map_cons, List.map_cons] at hnd
      exact (List.nodup_cons.mp hnd).1 (by rw [hid]; exact List.mem_cons_self _ _)

/-- C2 amended: the close-timer handle lives on the instance, not the
root.  In every reachable state each instance holds at most one live
close timer (arming always clears the same instance's previous handle
first); as `c2_counterexample` shows, two instances of one tree can
nevertheless hold live close timers simultaneously. -/
theorem c2_amended (tree : Tree) (opts : TracingOptions)
    (events : List HookEvent) (i : Nat) :
    ((runEvents tree opts initState events).timers.filter
      (fun t => t.owner == i)).length ≤ 1 :=
  inv_perOwner _ (inv_runEvents tree opts events initState inv_init) i

/-! ### C3 (amended): exact debounce behaviour for single-instance bursts -/

theorem runEvents_append (tree : Tree) (opts : TracingOptions)
    (l1 l2 : List HookEvent) (s : GlobalState) :
    runEvents tree opts s (l1 ++ l2) = runEvents tree opts (runEvents tree opts s l1) l2 := by
  induction l1 generalizing s with
  | nil => rfl
  | cons e es ih =>
    rw [List.cons_append]
    show runEvents tree opts (stepEvent tree opts s e) (es ++ l2) = _
    rw [ih]
    rfl

theorem fireDue_nil (bound : Time) (s : GlobalState) (h : s.timers = []) :
    fireDue bound s = s := by
  unfold fireDue
  rw [h]
  rfl

theorem pickDue_single_notdue (tr : TimerRec) (bound : Time)
    (h : bound < tr.fireAt) : pickDue [tr] bound = none := by
  unfold pickDue dueTimers
  rw [List.filter_cons]
  simp [Nat.not_le.mpr h]

theorem pickDue_single_due (tr : TimerRec) (bound : Time)
    (h : tr.fireAt ≤ bound) : pickDue [tr] bound = some tr := by
  unfold pickDue dueTimers
  rw [List.filter_cons]
  simp [h]

theorem fireDue_single_notdue (bound : Time) (s : GlobalState) (tr : TimerRec)
    (h : s.timers = [tr]) (hlt : bound < tr.fireAt) :
    fireDue bound s = s := by
  unfold fireDue
  rw [h]
  show fireDueAux 1 bound s = s
  unfold fireDueAux
  rw [h, pickDue_single_notdue tr bound hlt]

theorem fireDue_single_due (bound : Time) (s : GlobalState) (tr : TimerRec)
    (h : s.timers = [tr]) (hle : tr.fireAt ≤ bound) :
    fireDue bound s = fireTimer tr s := by
  unfold fireDue
  rw [h]
  show fireDueAux 1 bound s = fireTimer tr s
  unfold fireDueAux
  rw [h, pickDue_single_due tr bound hle]
  rfl

theorem beforeHookBody_nextSpan_ge (i : Nat) (op : String) (ext : Option Nat)
    (now : Time) (s : GlobalState) :
    s.nextSpan ≤ (beforeHookBody i op ext now s).nextSpan := by
  unfold beforeHookBody
  cases s.rootSpan.orElse (fun _ => ext) <;> cases s.sentrySpans i op <;> simp

theorem beforeHookBody_nextTimer (i : Nat) (op : String) (ext : Option Nat)
    (now : Time) (s : GlobalState) :
    (beforeHookBody i op ext now s).nextTimer = s.nextTimer := by
  unfold beforeHookBody
  cases s.rootSpan.orElse (fun _ => ext) <;> cases s.sentrySpans i op <;> rfl

theorem filter_isSome_append_none (es : List EndEvent) (sp : Nat) (w : Time) :
    (es ++ [EndEvent.mk sp none w]).filter (fun ev => ev.ts.isSome) =
      es.filter (fun ev => ev.ts.isSome) := by
  rw [List.filter_append]
  simp

theorem rootCloses_ensureRootSpan (tree : Tree) (i : Nat) (ext : Option Nat)
    (s : GlobalState) :
    rootCloses (ensureRootSpan tree i ext s) = rootCloses s := by
  unfold rootCloses
  rw [ensureRootSpan_endEvents]

theorem rootCloses_beforeHookBody (i : Nat) (op : String) (ext : Option Nat)
    (now : Time) (s : GlobalState) :
    rootCloses (beforeHookBody i op ext now s) = rootCloses s := by
  unfold beforeHookBody
  cases s.rootSpan.orElse (fun _ => ext) with
  | none => rfl
  | some c =>
    cases s.sentrySpans i op with
    | none => rfl
    | some oldSp =>
      show (s.endEvents ++ [EndEvent.mk oldSp none now]).filter _ = _
      exact filter_isSome_append_none s.endEvents oldSp now

/-- State shape maintained through a single-instance burst: the root
span `r` is open and unclosed, and (`pend` case) the child holds the one
pending close timer, scheduled at its last completion time `p` to fire
at `p + T` with payload `p`. -/
def goodShape (child : Nat) (T : Time) (r : Nat) (s : GlobalState)
    (pend : Option Time) : Prop :=
  s.rootSpan = some r ∧
  r < s.nextSpan ∧
  rootCloses s = [] ∧
  (match pend with
   | none => s.timers = [] ∧ s.timerOf child = none
   | some p => ∃ j, s.timers = [TimerRec.mk j (p + T) p child] ∧
       s.timerOf child = some j)

/-- A tracked operation's before-hook on a child instance at time `t`
under external span `e`. -/
def beforeEv (child : Nat) (op : String) (e : Nat) (t : Time) : HookEvent :=
  ⟨t, child, op, true, some e⟩

/-- The matching after-hook at time `t`. -/
def afterEv (child : Nat) (op : String) (e : Nat) (t : Time) : HookEvent :=
  ⟨t, child, op, false, some e⟩

/-- A burst of completed operations on one child instance: at each time
in `ts`, a before-hook immediately followed by its after-hook. -/
def burstEvents (child : Nat) (op : String) (e : Nat) (ts : List Time) :
    List HookEvent :=
  ts.flatMap (fun t => [beforeEv child op e t, afterEv child op e t])

theorem stepEvent_before_eq (tree : Tree) (opts : TracingOptions)
    (child : Nat) (op : String) (e : Nat) (t : Time) (s : GlobalState)
    (hchild : child ≠ tree.root)
    (htrack : shouldTrack opts (tree.displayName child) = true)
    (hfd : fireDue t s = s) :
    stepEvent tree opts s (beforeEv child op e t) =
      beforeHookBody child op (some e) t s := by
  show runHook tree opts child op true (some e) t (fireDue t s) = _
  rw [hfd, runHook_before_eq tree opts child op (some e) t s (Or.inr htrack),
    ensureRootSpan_notRoot tree child (some e) s hchild]

theorem stepEvent_after_eq (tree : Tree) (opts : TracingOptions)
    (child : Nat) (op : String) (e : Nat) (t : Time) (s : GlobalState)
    (hchild : child ≠ tree.root)
    (htrack : shouldTrack opts (tree.displayName child) = true)
    (hfd : fireDue t s = s) :
    stepEvent tree opts s (afterEv child op e t) =
      afterHookBody opts child op t s := by
  show runHook tree opts child op false (some e) t (fireDue t s) = _
  rw [hfd, runHook_after_eq tree opts child op (some e) t s (Or.inr htrack),
    ensureRootSpan_notRoot tree child (some e) s hchild]

/-- The before/after pair at time `t`, started from good shape with no
pending timer: back in good shape, timer now pending at `t + T`. -/
theorem pair_step_none (tree : Tree) (opts : TracingOptions) (child : Nat)
    (op : String) (e : Nat) (T r : Nat) (t : Time) (s : GlobalState)
    (hchild : child ≠ tree.root)
    (htrack : shouldTrack opts (tree.displayName child) = true)
    (hT : opts.timeout = T)
    (hs : goodShape child T r s none) :
    goodShape child T r
      (runEvents tree opts s [beforeEv child op e t, afterEv child op e t]) (some t) := by
  obtain ⟨hroot, hnext, hclose, htm, hto⟩ := hs
  have hrun : runEvents tree opts s [beforeEv child op e t, afterEv child op e t] =
      stepEvent tree opts (stepEvent tree opts s (beforeEv child op e t))
        (afterEv child op e t) := rfl
  have hfd1 : fireDue t s = s := fireDue_nil t s htm
  rw [hrun, stepEvent_before_eq tree opts child op e t s hchild htrack hfd1]
  have hctx : (s.rootSpan.orElse (fun _ => some e)).isSome = true := by
    rw [hroot]; rfl
  have hmap : (beforeHookBody child op (some e) t s).sentrySpans child op =
      some s.nextSpan := (beforeHookBody_open child op (some e) t s hctx).1
  have h1tm : (beforeHookBody child op (some e) t s).timers = [] := by
    rw [beforeHookBody_timers]; exact htm
  have hfd2 : fireDue t (beforeHookBody child op (some e) t s) =
      beforeHookBody child op (some e) t s := fireDue_nil t _ h1tm
  rw [stepEvent_after_eq tree opts child op e t _ hchild htrack hfd2]
  rw [afterHookBody_some opts child op t _ s.nextSpan hmap]
  have htox : ({ beforeHookBody child op (some e) t s with
      endEvents := (beforeHookBody child op (some e) t s).endEvents ++
        [EndEvent.mk s.nextSpan none t] } : GlobalState).timerOf child = none := by
    show (beforeHookBody child op (some e) t s).timerOf child = none
    rw [beforeHookBody_timerOf]; exact hto
  rw [finishRootSpan_eq_none child t opts.timeout t _ htox]
  refine ⟨?_, ?_, ?_, ?_⟩
  · show (beforeHookBody child op (some e) t s).rootSpan = some r
    rw [beforeHookBody_rootSpan]; exact hroot
  · show r < (beforeHookBody child op (some e) t s).nextSpan
    exact lt_of_lt_of_le hnext (beforeHookBody_nextSpan_ge child op (some e) t s)
  · show ((beforeHookBody child op (some e) t s).endEvents ++
      [EndEvent.mk s.nextSpan none t]).filter (fun ev => ev.ts.isSome) = []
    rw [filter_isSome_append_none]
    rw [show (beforeHookBody child op (some e) t s).endEvents.filter
      (fun ev => ev.ts.isSome) = rootCloses (beforeHookBody child op (some e) t s)
      from rfl]
    rw [rootCloses_beforeHookBody]
    exact hclose
  · refine ⟨(beforeHookBody child op (some e) t s).nextTimer, ?_, ?_⟩
    · show (beforeHookBody child op (some e) t s).timers ++ [_] = _
      rw [h1tm, List.nil_append, hT]
    · show (if child = child then _ else _) = _
      rw [if_pos rfl]

/-- The before/after pair at time `t`, started from good shape with a
timer pending from completion time `p`, with `t` inside the quiet
period: the pending timer is cancelled (not fired) and rescheduled. -/
theorem pair_step_some (tree : Tree) (opts : TracingOptions) (child : Nat)
    (op : String) (e : Nat) (T r : Nat) (p t : Time) (s : GlobalState)
    (hchild : child ≠ tree.root)
    (htrack : shouldTrack opts (tree.displayName child) = true)
    (hT : opts.timeout = T)
    (hlt : t < p + T)
    (hs : goodShape child T r s (some p)) :
    goodShape child T r
      (runEvents tree opts s [beforeEv child op e t, afterEv child op e t]) (some t) := by
  obtain ⟨hroot, hnext, hclose, j, htm, hto⟩ := hs
  have hrun : runEvents tree opts s [beforeEv child op e t, afterEv child op e t] =
      stepEvent tree opts (stepEvent tree opts s (beforeEv child op e t))
        (afterEv child op e t) := rfl
  have hfd1 : fireDue t s = s := fireDue_single_notdue t s _ htm hlt
  rw [hrun, stepEvent_before_eq tree opts child op e t s hchild htrack hfd1]
  have hctx : (s.rootSpan.orElse (fun _ => some e)).isSome = true := by
    rw [hroot]; rfl
  have hmap : (beforeHookBody child op (some e) t s).sentrySpans child op =
      some s.nextSpan := (beforeHookBody_open child op (some e) t s hctx).1
  have h1tm : (beforeHookBody child op (some e) t s).timers =
      [TimerRec.mk j (p + T) p child] := by
    rw [beforeHookBody_timers]; exact htm
  have hfd2 : fireDue t (beforeHookBody child op (some e) t s) =
      beforeHookBody child op (some e) t s := fireDue_single_notdue t _ _ h1tm hlt
  rw [stepEvent_after_eq tree opts child op e t _ hchild htrack hfd2]
  rw [afterHookBody_some opts child op t _ s.nextSpan hmap]
  have htox : ({ beforeHookBody child op (some e) t s with
      endEvents := (beforeHookBody child op (some e) t s).endEvents ++
        [EndEvent.mk s.nextSpan none t] } : GlobalState).timerOf child = some j := by
    show (beforeHookBody child op (some e) t s).timerOf child = some j
    rw [beforeHookBody_timerOf]; exact hto
  rw [finishRootSpan_eq_some child j t opts.timeout t _ htox]
  refine ⟨?_, ?_, ?_, ?_⟩
  · show (beforeHookBody child op (some e) t s).rootSpan = some r
    rw [beforeHookBody_rootSpan]; exact hroot
  · show r < (beforeHookBody child op (some e) t s).nextSpan
    exact lt_of_lt_of_le hnext (beforeHookBody_nextSpan_ge child op (some e) t s)
  · show ((beforeHookBody child op (some e) t s).endEvents ++
      [EndEvent.mk s.nextSpan none t]).filter (fun ev => ev.ts.isSome) = []
    rw [filter_isSome_append_none]
    rw [show (beforeHookBody child op (some e) t s).endEvents.filter
      (fun ev => ev.ts.isSome) = rootCloses (beforeHookBody child op (some e) t s)
      from rfl]
    rw [rootCloses_beforeHookBody]
    exact hclose
  · refine ⟨(beforeHookBody child op (some e) t s).nextTimer, ?_, ?_⟩
    · show clearTimeout j (beforeHookBody child op (some e) t s).timers ++ [_] = _
      rw [h1tm, hT]
      unfold clearTimeout
      simp
    · show (if child = child then _ else _) = _
      rw [if_pos rfl]

/-- Running a whole burst from good shape (timer pending since `p`)
keeps good shape, with the timer pending since the last completion. -/
theorem burst_preserves (tree : Tree) (opts : TracingOptions) (child : Nat)
    (op : String) (e : Nat) (T r : Nat)
    (hchild : child ≠ tree.root)
    (htrack : shouldTrack opts (tree.displayName child) = true)
    (hT : opts.timeout = T) :
    ∀ (ts : List Time) (p : Time) (s : GlobalState),
      goodShape child T r s (some p) →
      List.Chain' (fun a b => a ≤ b ∧ b < a + T) (p :: ts) →
      goodShape child T r (runEvents tree opts s (burstEvents child op e ts))
        (some (ts.getLastD p)) := by
  intro ts
  induction ts with
  | nil =>
    intro p s hs hch
    exact hs
  | cons t ts2 ih =>
    intro p s hs hch
    have hch2 := List.chain'_cons.mp hch
    have hburst : burstEvents child op e (t :: ts2) =
        [beforeEv child op e t, afterEv child op e t] ++ burstEvents child op e ts2 :=
      rfl
    rw [hburst, runEvents_append, List.getLastD_cons]
    exact ih t _ (pair_step_some tree opts child op e T r p t s hchild htrack hT
      hch2.1.2 hs) hch2.2

/-- The opening event: a before-hook on the root from the fresh state,
under an active external span, creates root span 0 and leaves the tree
in good shape with no timer pending. -/
theorem start_step_shape (tree : Tree) (opts : TracingOptions) (child : Nat)
    (op : String) (e : Nat) (T : Nat) (t0 : Time) :
    goodShape child T 0
      (stepEvent tree opts initState (beforeEv tree.root op e t0)) none := by
  have hfd : fireDue t0 initState = initState := fireDue_nil t0 initState rfl
  have hstep : stepEvent tree opts initState (beforeEv tree.root op e t0) =
      beforeHookBody tree.root op (some e) t0
        (ensureRootSpan tree tree.root (some e) initState) := by
    show runHook tree opts tree.root op true (some e) t0 (fireDue t0 initState) = _
    rw [hfd, runHook_before_eq tree opts tree.root op (some e) t0 initState (Or.inl rfl)]
  rw [hstep, ensureRootSpan_create tree tree.root e initState rfl rfl]
  refine ⟨?_, ?_, ?_, ?_, ?_⟩
  · rw [beforeHookBody_rootSpan]
    rfl
  · have := beforeHookBody_nextSpan_ge tree.root op (some e) t0
      { initState with
        rootSpan := some initState.nextSpan,
        rootSpanIds := initState.rootSpanIds ++ [initState.nextSpan],
        nextSpan := initState.nextSpan + 1 }
    exact lt_of_lt_of_le (Nat.zero_lt_one) this
  · rw [rootCloses_beforeHookBody]
    rfl
  · rw [beforeHookBody_timers]
    rfl
  · rw [beforeHookBody_timerOf]
    rfl

/-- Draining a good-shape state with a timer pending since `p` fires
that timer at `p + T`, closing root span `r` with the captured
timestamp `p`, exactly once. -/
theorem drain_shape (child : Nat) (T r : Nat) (p : Time) (s : GlobalState)
    (hs : goodShape child T r s (some p)) :
    rootCloses (drain s) = [EndEvent.mk r (some p) (p + T)] ∧
    (drain s).rootSpan = none ∧
    (drain s).timers = [] ∧
    (drain s).nextSpan = s.nextSpan := by
  obtain ⟨hroot, hnext, hclose, j, htm, hto⟩ := hs
  have hmax : maxFireAt s.timers = p + T := by
    rw [htm]
    show max 0 (p + T) = p + T
    exact Nat.max_eq_right (Nat.zero_le _)
  unfold drain
  rw [hmax, fireDue_single_due (p + T) s _ htm (le_refl _),
    fireTimer_rootSpan_some _ s r hroot]
  refine ⟨?_, rfl, ?_, rfl⟩
  · show (s.endEvents ++ [EndEvent.mk r (some p) (p + T)]).filter
      (fun ev => ev.ts.isSome) = _
    rw [List.filter_append]
    rw [show s.endEvents.filter (fun ev => ev.ts.isSome) = rootCloses s from rfl, hclose]
    rfl
  · show s.timers.filter _ = []
    rw [htm]
    simp

/-- C3 amended: the debounce property holds as stated when all
completions of the burst occur on a single (tracked, non-root) instance.
After a root before-hook opens the root span under an active external
trace, and completions occur at `t1 :: rest` with consecutive gaps
strictly below the quiet period `T`, the root span closes exactly once,
at wall-clock time (last completion) + `T`, carrying the last
completion's timestamp.  If the next root before-hook comes at least `T`
after the last completion and a trace is active, the closed run still
shows that single close, and a new (different) root span is open.
(With completions spread over several instances the original claim
fails: an earlier instance's un-cancelled timer can close the root span
before (last completion) + `T`, see the counterexample.) -/
theorem c3_amended (tree : Tree) (opts : TracingOptions) (child e : Nat)
    (op : String) (T : Nat) (t0 t1 tnext : Time) (rest : List Time)
    (hchild : child ≠ tree.root)
    (htrack : shouldTrack opts (tree.displayName child) = true)
    (hT : opts.timeout = T)
    (hchain : List.Chain' (fun a b => a ≤ b ∧ b < a + T) (t1 :: rest))
    (hlast : (t1 :: rest).getLastD 0 + T ≤ tnext) :
    rootCloses (runAll tree opts (beforeEv tree.root op e t0 ::
        burstEvents child op e (t1 :: rest))) =
      [EndEvent.mk 0 (some ((t1 :: rest).getLastD 0)) ((t1 :: rest).getLastD 0 + T)] ∧
    rootCloses (runAll tree opts ((beforeEv tree.root op e t0 ::
        burstEvents child op e (t1 :: rest)) ++ [beforeEv tree.root op e tnext])) =
      [EndEvent.mk 0 (some ((t1 :: rest).getLastD 0)) ((t1 :: rest).getLastD 0 + T)] ∧
    ∃ rr, (runAll tree opts ((beforeEv tree.root op e t0 ::
        burstEvents child op e (t1 :: rest)) ++ [beforeEv tree.root op e tnext])).rootSpan =
      some rr ∧ rr ≠ 0 := by
  rw [List.getLastD_cons] at hlast ⊢
  -- the state after the opening event and the whole burst
  have hstart : goodShape child T 0
      (stepEvent tree opts initState (beforeEv tree.root op e t0)) none :=
    start_step_shape tree opts child op e T t0
  have hpair1 : goodShape child T 0
      (runEvents tree opts (stepEvent tree opts initState (beforeEv tree.root op e t0))
        [beforeEv child op e t1, afterEv child op e t1]) (some t1) :=
    pair_step_none tree opts child op e T 0 t1 _ hchild htrack hT hstart
  have hshapeEnd : goodShape child T 0
      (runEvents tree opts initState (beforeEv tree.root op e t0 ::
        burstEvents child op e (t1 :: rest))) (some (rest.getLastD t1)) := by
    have hsplit : runEvents tree opts initState (beforeEv tree.root op e t0 ::
        burstEvents child op e (t1 :: rest)) =
        runEvents tree opts
          (runEvents tree opts (stepEvent tree opts initState (beforeEv tree.root op e t0))
            [beforeEv child op e t1, afterEv child op e t1])
          (burstEvents child op e rest) := by
      show runEvents tree opts (stepEvent tree opts initState (beforeEv tree.root op e t0))
        (burstEvents child op e (t1 :: rest)) = _
      rw [show burstEvents child op e (t1 :: rest) =
        [beforeEv child op e t1, afterEv child op e t1] ++ burstEvents child op e rest
        from rfl]
      rw [runEvents_append]
    rw [hsplit]
    exact burst_preserves tree opts child op e T 0 hchild htrack hT rest t1 _
      hpair1 hchain
  refine ⟨?_, ?_⟩
  · exact (drain_shape child T 0 (rest.getLastD t1) _ hshapeEnd).1
  -- part 2: the reopening event
  obtain ⟨hroot, hnum, hclose, j, htm, hto⟩ := hshapeEnd
  have hsplitAll : runEvents tree opts initState ((beforeEv tree.root op e t0 ::
      burstEvents child op e (t1 :: rest)) ++ [beforeEv tree.root op e tnext]) =
      stepEvent tree opts
        (runEvents tree opts initState (beforeEv tree.root op e t0 ::
          burstEvents child op e (t1 :: rest)))
        (beforeEv tree.root op e tnext) := by
    rw [runEvents_append]
    rfl
  unfold runAll
  rw [hsplitAll]
  generalize hE : runEvents tree opts initState (beforeEv tree.root op e t0 ::
      burstEvents child op e (t1 :: rest)) = sE at hroot hnum hclose htm hto ⊢
  have hfdue : fireDue tnext sE =
      fireTimer (TimerRec.mk j (rest.getLastD t1 + T) (rest.getLastD t1) child) sE :=
    fireDue_single_due tnext sE _ htm hlast
  have hstep2 : stepEvent tree opts sE (beforeEv tree.root op e tnext) =
      beforeHookBody tree.root op (some e) tnext
        (ensureRootSpan tree tree.root (some e)
          (fireTimer (TimerRec.mk j (rest.getLastD t1 + T) (rest.getLastD t1) child) sE)) := by
    show runHook tree opts tree.root op true (some e) tnext (fireDue tnext sE) = _
    rw [hfdue, runHook_before_eq tree opts tree.root op (some e) tnext _ (Or.inl rfl)]
  rw [hstep2]
  have hFroot : (fireTimer (TimerRec.mk j (rest.getLastD t1 + T)
      (rest.getLastD t1) child) sE).rootSpan = none := by
    rw [fireTimer_rootSpan_some _ sE 0 hroot]
  have hFtimers : (fireTimer (TimerRec.mk j (rest.getLastD t1 + T)
      (rest.getLastD t1) child) sE).timers = [] := by
    rw [fireTimer_rootSpan_some _ sE 0 hroot]
    show sE.timers.filter _ = []
    rw [htm]
    simp
  have hFclose : rootCloses (fireTimer (TimerRec.mk j (rest.getLastD t1 + T)
      (rest.getLastD t1) child) sE) =
      [EndEvent.mk 0 (some (rest.getLastD t1)) (rest.getLastD t1 + T)] := by
    rw [fireTimer_rootSpan_some _ sE 0 hroot]
    show (sE.endEvents ++
      [EndEvent.mk 0 (some (rest.getLastD t1)) (rest.getLastD t1 + T)]).filter
      (fun ev => ev.ts.isSome) = _
    rw [List.filter_append,
      show sE.endEvents.filter (fun ev => ev.ts.isSome) = rootCloses sE from rfl,
      hclose]
    rfl
  have hFnext : (fireTimer (TimerRec.mk j (rest.getLastD t1 + T)
      (rest.getLastD t1) child) sE).nextSpan = sE.nextSpan := by
    rw [fireTimer_rootSpan_some _ sE 0 hroot]
  generalize hF : fireTimer (TimerRec.mk j (rest.getLastD t1 + T)
      (rest.getLastD t1) child) sE = sF at hFroot hFtimers hFclose hFnext ⊢
  rw [ensureRootSpan_create tree tree.root e sF rfl hFroot]
  have htimersB : (beforeHookBody tree.root op (some e) tnext
      { sF with
        rootSpan := some sF.nextSpan,
        rootSpanIds := sF.rootSpanIds ++ [sF.nextSpan],
        nextSpan := sF.nextSpan + 1 }).timers = [] := by
    rw [beforeHookBody_timers]
    exact hFtimers
  have hdrain : drain (beforeHookBody tree.root op (some e) tnext
      { sF with
        rootSpan := some sF.nextSpan,
        rootSpanIds := sF.rootSpanIds ++ [sF.nextSpan],
        nextSpan := sF.nextSpan + 1 }) =
      beforeHookBody tree.root op (some e) tnext
      { sF with
        rootSpan := some sF.nextSpan,
        rootSpanIds := sF.rootSpanIds ++ [sF.nextSpan],
        nextSpan := sF.nextSpan + 1 } := by
    unfold drain
    exact fireDue_nil _ _ htimersB
  rw [hdrain]
  constructor
  · rw [rootCloses_beforeHookBody]
    exact hFclose
  · refine ⟨sF.nextSpan, ?_, ?_⟩
    · rw [beforeHookBody_rootSpan]
    · rw [hFnext]
      exact Nat.pos_iff_ne_zero.mp hnum

/-- C3 witness: on the concrete tree, a root open at time 0 and child
completions at times 1 and 7 (gap 6 < T = 10) close the root span once
at 17 with timestamp 7; a root before-hook at 17 reopens a fresh root
span. -/
theorem c3_amended_witness :
    (1 : Nat) ≠ treeA.root ∧
    shouldTrack optsA (treeA.displayName 1) = true ∧
    optsA.timeout = 10 ∧
    List.Chain' (fun a b => a ≤ b ∧ b < a + 10) [1, 7] ∧
    ([1, 7] : List Time).getLastD 0 + 10 ≤ 17 ∧
    (rootCloses (runAll treeA optsA (beforeEv treeA.root "mount" 50 0 ::
        burstEvents 1 "mount" 50 [1, 7])) = [EndEvent.mk 0 (some 7) 17] ∧
      rootCloses (runAll treeA optsA ((beforeEv treeA.root "mount" 50 0 ::
        burstEvents 1 "mount" 50 [1, 7]) ++ [beforeEv treeA.root "mount" 50 17])) =
        [EndEvent.mk 0 (some 7) 17] ∧
      ∃ rr, (runAll treeA optsA ((beforeEv treeA.root "mount" 50 0 ::
        burstEvents 1 "mount" 50 [1, 7]) ++
          [beforeEv treeA.root "mount" 50 17])).rootSpan = some rr ∧ rr ≠ 0) := by
  have hch : List.Chain' (fun a b : Time => a ≤ b ∧ b < a + 10) [1, 7] := by
    rw [List.chain'_cons]
    exact ⟨by decide, List.chain'_singleton _⟩
  refine ⟨by decide, by decide, rfl, hch, by decide, ?_⟩
  exact c3_amended treeA optsA 1 50 "mount" 10 0 1 17 [7] (by decide) (by decide) rfl
    hch (by decide)

end SentryVue
